import Mathlib

/-!
Verification development for the drug-repurposing knowledge-graph and
network-propagation engine.  The Python sources are shallowly embedded:
pure record transformations become Lean functions over explicit row types,
NumPy float vectors become lists of rationals (`List ℚ`), pandas frames
become lists of rows, and fallible lookups return `Option`.
-/

/-! ## Score frames and vector helpers (pandas / NumPy over `List ℚ`) -/

/-- A pandas `DataFrame` holding propagation results: its column names and
its rows, each row a node name with a score. -/
structure ScoreFrame where
  cols : List String
  rows : List (String × ℚ)
deriving DecidableEq, Repr

/-- Look a node's score up in a result frame (first matching row). -/
def scoreOf (df : ScoreFrame) (node : String) : Option ℚ :=
  (df.rows.find? (fun p => p.1 == node)).map (fun p => p.2)

/-- Elementwise vector sum (`a + b` on NumPy arrays). -/
def vecAdd (a b : List ℚ) : List ℚ := List.zipWith (fun x y => x + y) a b

/-- Scalar times vector (`c * v` on a NumPy array). -/
def scaleVec (c : ℚ) (v : List ℚ) : List ℚ := v.map (fun x => c * x)

/-- L1 distance `np.linalg.norm(a - b, ord=1)` of two vectors. -/
def l1dist (a b : List ℚ) : ℚ := (List.zipWith (fun x y => |x - y|) a b).sum

/-- NumPy `m.T.dot(v)`: the transpose of the row-matrix `m` applied to `v`,
accumulated as `Σ_j v_j · row_j` over an all-zero vector of width `n`. -/
def matTvec (m : List (List ℚ)) (v : List ℚ) (n : Nat) : List ℚ :=
  (List.zip m v).foldl (fun acc rs => vecAdd acc (scaleVec rs.2 rs.1))
    (List.replicate n 0)

/-! ## Graphs and the propagation engine (`scoring.propagation`, `scoring.rwr`) -/

structure PropGraph where
  nodes : List String
  adj : List (List ℚ)
deriving DecidableEq, Repr

/-- A graph is well formed when its adjacency matrix is square with one
row and one column per node. -/
def PropGraph.wf (g : PropGraph) : Prop :=
  g.adj.length = g.nodes.length ∧ ∀ row ∈ g.adj, row.length = g.nodes.length

/-- The `{node: i for i, node in enumerate(nodes)}` index of a node. -/
def indexIn : List String → String → Option Nat
  | [], _ => none
  | n :: ns, x => if n = x then some 0 else (indexIn ns x).map (fun i => i + 1)

/-- Build the seed vector: start from `np.zeros(len(nodes))` and assign
`seed_vec[index[node]] = weight` for each seed entry whose key is a node. -/
def buildSeedVec (nodes : List String) (seeds : List (String × ℚ)) : List ℚ :=
  seeds.foldl
    (fun vec kw =>
      match indexIn nodes kw.1 with
      | some i => vec.set i kw.2
      | none => vec)
    (List.replicate nodes.length 0)

/-- Row sums `adjacency.sum(axis=1)` of the adjacency matrix. -/
def degreeVec (adj : List (List ℚ)) : List ℚ := adj.map List.sum

/-- NumPy `degree[degree == 0] = 1` followed by `adjacency / degree[:, None]`:
the transition matrix the code divides each adjacency row by. -/
def transitionMatrix (adj : List (List ℚ)) : List (List ℚ) :=
  List.zipWith (fun row d => row.map (fun w => w / d))
    adj ((degreeVec adj).map (fun d => if d = 0 then 1 else d))

/-- One heat-diffusion update `alpha * seed_vec + (1 - alpha) * P.T.dot(s)`. -/
def heatStep (alpha : ℚ) (seedVec : List ℚ) (P : List (List ℚ)) (n : Nat)
    (s : List ℚ) : List ℚ :=
  vecAdd (scaleVec alpha seedVec) (scaleVec (1 - alpha) (matTvec P s n))

/-- One RWR update `(1 - restart_prob) * P.T.dot(s) + restart_prob * seed_vec`. -/
def rwrStep (restart : ℚ) (seedVec : List ℚ) (P : List (List ℚ)) (n : Nat)
    (s : List ℚ) : List ℚ :=
  vecAdd (scaleVec (1 - restart) (matTvec P s n)) (scaleVec restart seedVec)

/-- The `for _ in range(max_iter)` loop shared by both propagation
routines: compute `u = F s`; if `‖u - s‖₁ < tol`, stop with `u`,
otherwise continue from `u` with one fewer iteration left. -/
def propLoop (F : List ℚ → List ℚ) (tol : ℚ) : Nat → List ℚ → List ℚ
  | 0, s => s
  | n + 1, s =>
      let u := F s
      if l1dist u s < tol then u else propLoop F tol n u

/-- Stable insertion into a list sorted by descending score, modelling
`DataFrame.sort_values("score", ascending=False)`. -/
def insertDesc (x : String × ℚ) : List (String × ℚ) → List (String × ℚ)
  | [] => [x]
  | y :: ys => if y.2 < x.2 then x :: y :: ys else y :: insertDesc x ys

/-- Sort result rows by descending score. -/
def sortByScoreDesc (rows : List (String × ℚ)) : List (String × ℚ) :=
  rows.foldr insertDesc []

/-- Source `scoring.propagation.heat_diffusion`: heat diffusion over the graph.
Returns the empty frame with columns `["node", "score"]` on an empty
graph; otherwise iterates `scores ← α·seed + (1-α)·Pᵗ·scores` from the
seed vector and returns all nodes with their scores, sorted descending. -/
def heat_diffusion (g : PropGraph) (seeds : List (String × ℚ))
    (alpha : ℚ := 7/10) (tol : ℚ := 1/1000000) (max_iter : Nat := 100) :
    ScoreFrame :=
  if g.nodes.length = 0 then ⟨["node", "score"], []⟩
  else
    let n := g.nodes.length
    let seedVec := buildSeedVec g.nodes seeds
    let P := transitionMatrix g.adj
    let scores := propLoop (heatStep alpha seedVec P n) tol max_iter seedVec
    ⟨["node", "score"], sortByScoreDesc (g.nodes.zip scores)⟩

/-- Python `sum(seeds.values()) or 1.0`: the RWR seed normalizer, falling back
to `1` when the total seed weight is zero (Python `or` on a float). -/
def rwrNorm (seeds : List (String × ℚ)) : ℚ :=
  let s := (seeds.map (fun p => p.2)).sum
  if s = 0 then 1 else s

/-- Source `scoring.rwr.random_walk_with_restart`: random walk with restart.
Empty graphs give the empty frame with columns `["node", "score"]`;
otherwise seeds are divided by `rwrNorm`, assigned into the seed vector,
and `scores ← (1-r)·Pᵗ·scores + r·seed` is iterated. -/
def random_walk_with_restart (g : PropGraph) (seeds : List (String × ℚ))
    (restart_prob : ℚ := 3/10) (tol : ℚ := 1/1000000) (max_iter : Nat := 200) :
    ScoreFrame :=
  if g.nodes.length = 0 then ⟨["node", "score"], []⟩
  else
    let n := g.nodes.length
    let norm := rwrNorm seeds
    let seedVec := buildSeedVec g.nodes (seeds.map (fun p => (p.1, p.2 / norm)))
    let P := transitionMatrix g.adj
    let scores := propLoop (rwrStep restart_prob seedVec P n) tol max_iter seedVec
    ⟨["node", "score"], sortByScoreDesc (g.nodes.zip scores)⟩

/-! ## Storage loading (`scoring.run_scoring.load_graph`) -/

/-- One directed weighted edge of the materialized propagation graph. -/
structure GEdge where
  src : String
  dst : String
  weight : ℚ
deriving DecidableEq, Repr

/-- The networkx call `graph.add_edge(src, dst, weight=w)`: replace the weight if the edge
exists, otherwise append the new edge. -/
def addEdge (g : List GEdge) (s d : String) (w : ℚ) : List GEdge :=
  if g.any (fun e => e.src = s ∧ e.dst = d) then
    g.map (fun e => if e.src = s ∧ e.dst = d then ⟨s, d, w⟩ else e)
  else g ++ [⟨s, d, w⟩]

/-- Source `scoring.run_scoring.load_graph`: for every stored `protein_edge` row
`(src, dst, sign)` add a directed edge with weight
`1.0 if sign == "+" else -1.0`. -/
def load_graph (rows : List (String × String × Option String)) : List GEdge :=
  rows.foldl
    (fun g row =>
      let w : ℚ := if row.2.2 = some "+" then 1 else -1
      addEdge g row.1 row.2.1 w)
    []

/-! ## Raw records and the edge normalizers (`graph.build_graph`) -/

inductive Value where
  | vNone : Value
  | vBool : Bool → Value
  | vInt : Int → Value
  | vStr : String → Value
deriving DecidableEq, Repr

/-- A raw source record: one row of an input frame. -/
def SrcRecord := List (String × Value)

/-- Python `str.strip()`: drop leading and trailing whitespace
(kernel-computable replacement for `String.trim`). -/
def pyStrip (s : String) : String :=
  ⟨((s.data.dropWhile Char.isWhitespace).reverse.dropWhile
      Char.isWhitespace).reverse⟩

/-- Python `str.lower()` over the string's characters. -/
def pyLower (s : String) : String := ⟨s.data.map Char.toLower⟩

/-- Split a character list on `'.'` (Python `str.split(".")`). -/
def splitDot : List Char → List (List Char)
  | [] => [[]]
  | c :: cs =>
    match splitDot cs with
    | [] => [[]]
    | g :: gs => if c = '.' then [] :: g :: gs else (c :: g) :: gs

/-- Python `str.replace(" ", "_")`. -/
def underscoreSpaces (s : String) : String :=
  ⟨s.data.map (fun c => if c = ' ' then '_' else c)⟩

/-- Python `str(value)` for the modelled cell values. -/
def pyStr : Value → String
  | .vNone => "None"
  | .vBool true => "True"
  | .vBool false => "False"
  | .vInt n => toString n
  | .vStr s => s

/-- Python truthiness of a cell (`not value` is the negation of this). -/
def pyTruthy : Value → Bool
  | .vNone => false
  | .vBool b => b
  | .vInt n => n != 0
  | .vStr s => s != ""

/-- Python `record.get(key)`: the cell under `key`, `None` when absent. -/
def rget (record : SrcRecord) (key : String) : Value :=
  match record.find? (fun p => p.1 == key) with
  | some p => p.2
  | none => .vNone

/-- Source `graph.build_graph._truthy`: bools pass through, `None` is false,
numbers are compared with zero, and anything else is stripped,
lowercased and matched against the literal truthy set. -/
def _truthy : Value → Bool
  | .vBool b => b
  | .vNone => false
  | .vInt n => n != 0
  | v => ["1", "true", "t", "yes", "y", "direct", "up"].contains
      (pyLower (pyStrip (pyStr v)))

/-- Source `graph.build_graph._first`: probe the candidate keys in order and
return the first present, non-`None` value whose stripped string form is
non-empty. -/
def _first (record : SrcRecord) : List String → Option String
  | [] => none
  | key :: keys =>
    match record.find? (fun p => p.1 == key) with
    | none => _first record keys
    | some p =>
      match p.2 with
      | .vNone => _first record keys
      | v =>
        let text := pyStrip (pyStr v)
        if text = "" then _first record keys else some text

/-- One normalized `ProteinEdge` row.  The JSON wrapping of the evidence
payload is kept as the raw evidence string (`none` encodes the empty
payload `{}`). -/
structure PEdgeRow where
  src_gene_id : String
  dst_gene_id : String
  relation : String
  sign : Option String
  direct : Bool
  evidence : Option String
  source : String
  source_reference : String
deriving DecidableEq, Repr

/-- One normalized drug-target row.  The affinity is kept as the raw
text probed from the record (numeric coercion does not affect any key). -/
structure DTRow where
  drug_id : String
  target_id : String
  target_type : String
  action : String
  affinity : Option String
  affinity_unit : String
  moa_category : String
  source : String
  evidence : Option String
deriving DecidableEq, Repr

/-- The composite uniqueness key of `protein_edge` rows. -/
def key5 (r : PEdgeRow) : String × String × String × Option String × String :=
  (r.src_gene_id, r.dst_gene_id, r.relation, r.sign, r.source)

/-- The `(src_gene_id, dst_gene_id, source)` key used by the STRING path. -/
def key3 (r : PEdgeRow) : String × String × String :=
  (r.src_gene_id, r.dst_gene_id, r.source)

/-- The composite uniqueness key of drug-target rows. -/
def keyDT (r : DTRow) : String × String × String :=
  (r.drug_id, r.target_id, r.source)

/-- Pandas `DataFrame.drop_duplicates(subset=key)` keeping the first occurrence:
skip any row whose key was already seen. -/
def dedupByAux {α κ : Type} [DecidableEq κ] (key : α → κ) :
    List κ → List α → List α
  | _, [] => []
  | seen, x :: xs =>
    if key x ∈ seen then dedupByAux key seen xs
    else x :: dedupByAux key (key x :: seen) xs

/-- Drop duplicate rows on a key, keeping first occurrences in order. -/
def dedupBy {α κ : Type} [DecidableEq κ] (key : α → κ) (l : List α) : List α :=
  dedupByAux key [] l

/-- Candidate columns for the interaction's source gene. -/
def srcKeys : List String :=
  ["source_genesymbol", "source", "ENTITYA", "ENTITY_A", "ENTITYA_NAME"]

/-- Candidate columns for the interaction's target gene. -/
def dstKeys : List String :=
  ["target_genesymbol", "target", "ENTITYB", "ENTITY_B", "ENTITYB_NAME"]

/-- Candidate columns for the relation label. -/
def relationKeys : List String :=
  ["consensus_direction", "interaction_type", "type", "mechanism",
   "MECHANISM", "EFFECT"]

/-- Explicit stimulation flags probed for a `+` sign. -/
def stimulationKeys : List String :=
  ["is_stimulation", "consensus_stimulation", "stimulation",
   "UP_REGULATION", "up-regulates"]

/-- Explicit inhibition flags probed for a `-` sign. -/
def inhibitionKeys : List String :=
  ["is_inhibition", "consensus_inhibition", "inhibition",
   "DOWN_REGULATION", "down-regulates"]

/-- Direct-interaction flags. -/
def directKeys : List String := ["is_direct", "direct", "DIRECT", "is_directed"]

/-- Evidence reference columns. -/
def evidenceKeys : List String :=
  ["references", "curation_effort", "pmid", "REFERENCE", "PMID"]

/-- Substring containment on strings (Python `"sub" in text`). -/
def containsSub (text sub : String) : Bool :=
  (List.range (text.length + 1)).any
    (fun i => sub.data.isPrefixOf (text.data.drop i))

/-- The per-record body of `normalize_signed_edges`: resolve source and
target via `_first` (skipping the record when either is missing), build
the relation label, resolve the sign from explicit flags and then from
the free-text `EFFECT` field, and drop the record when no sign resolves. -/
def normalize_signed_record (source_name : String) (record : SrcRecord) :
    Option PEdgeRow :=
  match _first record srcKeys, _first record dstKeys with
  | some src, some dst =>
    let relation := underscoreSpaces ((_first record relationKeys).getD "interaction")
    let sign0 : Option String :=
      if stimulationKeys.any (fun k => _truthy (rget record k)) then some "+"
      else if inhibitionKeys.any (fun k => _truthy (rget record k)) then some "-"
      else none
    let effect := pyLower ((_first record ["EFFECT"]).getD "")
    let sign : Option String :=
      match sign0 with
      | some s => some s
      | none =>
        if containsSub effect "activ" then some "+"
        else if containsSub effect "inhib" || containsSub effect "down" then some "-"
        else none
    match sign with
    | none => none
    | some s =>
      let direct := directKeys.any (fun k => _truthy (rget record k))
      let evidence := _first record evidenceKeys
      some
        { src_gene_id := src
          dst_gene_id := dst
          relation := relation
          sign := some s
          direct := direct || source_name == "OmniPath"
          evidence := evidence
          source := source_name
          source_reference := evidence.getD "" }
  | _, _ => none

/-- Source `graph.build_graph.normalize_signed_edges`: normalize every record of
a source frame and drop duplicates on the composite 5-column key. -/
def normalize_signed_edges (records : List SrcRecord) (source_name : String) :
    List PEdgeRow :=
  dedupBy key5 (records.filterMap (normalize_signed_record source_name))

/-- The per-record body of `normalize_string`: require truthy `protein1`
and `protein2` cells, strip any taxon prefix up to the last dot, and emit
an unsigned physical-interaction row tagged `STRING`. -/
def normalize_string_record (record : SrcRecord) : Option PEdgeRow :=
  let src := rget record "protein1"
  let dst := rget record "protein2"
  if !pyTruthy src || !pyTruthy dst then none
  else
    let strip := fun (v : Value) =>
      match v with
      | .vStr s =>
        if s.data.contains '.' then ⟨(splitDot s.data).getLastD s.data⟩ else s
      | v => pyStr v
    let score := rget record "combined_score"
    some
      { src_gene_id := strip src
        dst_gene_id := strip dst
        relation := "physical_interaction"
        sign := none
        direct := false
        evidence := if score = .vNone then none else some (pyStr score)
        source := "STRING"
        source_reference := "STRING" }

/-- Source `graph.build_graph.normalize_string`: normalize the STRING frame and
drop duplicates on `(src_gene_id, dst_gene_id, source)`. -/
def normalize_string (records : List SrcRecord) : List PEdgeRow :=
  dedupBy key3 (records.filterMap normalize_string_record)

/-- Candidate columns for the drug identifier. -/
def drugIdKeys : List String :=
  ["drug_chembl_id", "molecule_chembl_id", "drugcentral_id", "drugbank_id",
   "ligand_id", "drug_id", "DRUG_ID"]

/-- Candidate columns for the target identifier. -/
def targetIdKeys : List String :=
  ["gene", "target_gene_symbol", "accession", "uniprot_id", "swissprot",
   "target_id", "target"]

/-- Candidate columns for the binding action. -/
def actionKeys : List String :=
  ["action_type", "action", "act_comment", "activity_comment",
   "mechanism_of_action", "mode_of_action"]

/-- Candidate columns for the affinity value. -/
def affinityKeys : List String :=
  ["act_value", "standard_value", "affinity", "pchembl_value", "activity_value"]

/-- The per-record body of `normalize_drug_targets`: probe drug and
target identifiers (dropping the record when either is missing) and the
optional enrichment columns, tagging the row with the source name. -/
def normalize_drug_target_record (source_name : String) (record : SrcRecord) :
    Option DTRow :=
  match _first record drugIdKeys, _first record targetIdKeys with
  | some drug_id, some target_id =>
    some
      { drug_id := drug_id
        target_id := target_id
        target_type := (_first record
          ["target_class", "target_type", "target_pref_name",
           "target_organism"]).getD ""
        action := (_first record actionKeys).getD ""
        affinity := _first record affinityKeys
        affinity_unit := (_first record
          ["act_unit", "standard_units", "affinity_unit"]).getD ""
        moa_category := (_first record
          ["moa", "mechanism_comment", "mechanism_of_action"]).getD ""
        source := source_name
        evidence := _first record
          ["reference", "pmid", "pubmed_id", "source_reference"] }
  | _, _ => none

/-- Source `graph.build_graph.normalize_drug_targets`: normalize a frame and
drop duplicates on `(drug_id, target_id, source)`. -/
def normalize_drug_targets (records : List SrcRecord) (source_name : String) :
    List DTRow :=
  dedupBy keyDT (records.filterMap (normalize_drug_target_record source_name))

/-- The `protein_edge` table assembled from the OmniPath, SIGNOR and
STRING frames: concatenate the three normalized frames and drop
duplicates on the composite 5-column key again. -/
def assemble_protein_edges (omni signor string_ : List SrcRecord) :
    List PEdgeRow :=
  dedupBy key5
    (normalize_signed_edges omni "OmniPath" ++
      normalize_signed_edges signor "SIGNOR" ++
      normalize_string string_)

/-- The `drug_target` table assembled from the DrugCentral and IUPHAR
frames: the two normalized frames are concatenated with no further
dedup step. -/
def assemble_drug_target (dc iuphar : List SrcRecord) : List DTRow :=
  normalize_drug_targets dc "DrugCentral" ++ normalize_drug_targets iuphar "IUPHAR"

/-- First IUPHAR record of the C4 dedup scenario. -/
def iupharRec1 : SrcRecord :=
  [("ligand_id", Value.vStr "CHEMBL1"), ("uniprot_id", Value.vStr "GENE2"),
   ("mechanism_of_action", Value.vStr "agonist")]

/-- Second IUPHAR record of the C4 dedup scenario, sharing the composite
key of the first. -/
def iupharRec2 : SrcRecord :=
  [("ligand_id", Value.vStr "CHEMBL1"), ("uniprot_id", Value.vStr "GENE2"),
   ("mechanism_of_action", Value.vStr "antagonist")]

/-- The normalized row the first IUPHAR record produces. -/
def iupharRow1 : DTRow :=
  ⟨"CHEMBL1", "GENE2", "", "agonist", none, "", "agonist", "IUPHAR", none⟩

/-- Sign resolution as the specification words it: explicit stimulation
flags win, then explicit inhibition flags, then the free-text effect
field classified by substring (`activ` gives `+`, `inhib` or `down`
gives `-`); when nothing resolves there is no sign. -/
def specResolveSign (record : SrcRecord) : Option String :=
  if stimulationKeys.any (fun k => _truthy (rget record k)) then some "+"
  else if inhibitionKeys.any (fun k => _truthy (rget record k)) then some "-"
  else
    let effect := pyLower ((_first record ["EFFECT"]).getD "")
    if containsSub effect "activ" then some "+"
    else if containsSub effect "inhib" || containsSub effect "down" then some "-"
    else none

/-- An OmniPath-style record with an explicit stimulation flag. -/
def omniStimRec : SrcRecord :=
  [("source_genesymbol", Value.vStr "GENE1"),
   ("target_genesymbol", Value.vStr "GENE2"),
   ("is_stimulation", Value.vBool true)]

/-- The row `omniStimRec` normalizes to. -/
def omniStimRow : PEdgeRow :=
  ⟨"GENE1", "GENE2", "interaction", some "+", true, none, "OmniPath", ""⟩

/-! ## Spec-side views of the propagation loop -/

/-- The `k`-fold application of the update map. -/
def iterF (F : List ℚ → List ℚ) : Nat → List ℚ → List ℚ
  | 0, s => s
  | k + 1, s => F (iterF F k s)

/-- The transition matrix as the specification words it: each adjacency
entry divided by its row's weight sum, rows summing to zero divided by
`1` instead. -/
def specTransition (adj : List (List ℚ)) : List (List ℚ) :=
  adj.map (fun row => row.map (fun w => w / (if row.sum = 0 then 1 else row.sum)))

/-- The heat-diffusion update map as the specification words it:
`alpha * seed + (1 - alpha) * P_spec.T.dot(scores)` over the spec
transition matrix. -/
def heatUpdate (g : PropGraph) (seeds : List (String × ℚ)) (alpha : ℚ) :
    List ℚ → List ℚ :=
  heatStep alpha (buildSeedVec g.nodes seeds) (specTransition g.adj)
    g.nodes.length

/-- A graph whose node `A` has outgoing weights `+1` and `-1`, which
cancel: its weighted out-degree is `0`. -/
def cancelGraph : PropGraph :=
  ⟨["A", "B", "C"], [[0, 1, -1], [0, 0, 0], [0, 0, 0]]⟩

/-- The undirected two-node graph `A — B` with edge weight `1.0`, as its
symmetric dense adjacency matrix. -/
def twoNodeGraph : PropGraph := ⟨["A", "B"], [[0, 1], [1, 0]]⟩

/-! ## Interconnectivity metrics (`scoring.interconnectivity`) -/

/-- A float-valued statistic: `NaN`, `+inf`, or a finite rational. -/
inductive PFloat where
  | nan : PFloat
  | inf : PFloat
  | fin : ℚ → PFloat
deriving DecidableEq, Repr

/-- A `networkx` graph as the interconnectivity code sees it: the node
list plus the library's weighted shortest-path-length oracle. -/
structure NXGraph where
  nodes : List String
  spl : String → String → Option ℚ

/-- Python `itertools.combinations(sub_nodes, 2)` in order. -/
def pairsOf : List String → List (String × String)
  | [] => []
  | x :: xs => xs.map (fun y => (x, y)) ++ pairsOf xs

/-- Source `scoring.interconnectivity.average_shortest_path`: restrict the
queried nodes to those present in the graph, return `NaN` below two
survivors, collect the pairwise path lengths skipping unreachable
pairs, return `inf` when every pair was unreachable and otherwise the
mean of the reachable lengths. -/
def average_shortest_path (g : NXGraph) (nodes : List String) : PFloat :=
  let sub_nodes := nodes.filter (fun n => g.nodes.contains n)
  if sub_nodes.length < 2 then .nan
  else
    let lengths := (pairsOf sub_nodes).filterMap (fun p => g.spl p.1 p.2)
    if lengths.isEmpty then .inf
    else .fin (lengths.sum / lengths.length)

/-- Modelled pseudo-random generator step: `np.random.default_rng` is
modelled as a deterministic linear-congruential stand-in; only the
determinism of the generator matters to the claims. -/
def lcgNext (s : Nat) : Nat := (s * 1103515245 + 12345) % 2147483648

/-- NumPy `rng.choice(pool, size=k, replace=False)`: draw `k` distinct
elements, threading the generator state. -/
def drawSample : Nat → List String → Nat → (List String × Nat)
  | st, _, 0 => ([], st)
  | st, pool, k + 1 =>
    if pool.length = 0 then ([], st)
    else
      let i := st % pool.length
      let x := pool.getD i ""
      let r := drawSample (lcgNext st) (pool.eraseIdx i) k
      (x :: r.1, r.2)

/-- Draw `iterations` samples of size `k` from the node pool. -/
def drawSamples (st : Nat) (pool : List String) (k : Nat) :
    Nat → List (List String)
  | 0 => []
  | it + 1 =>
    let r := drawSample st pool k
    r.1 :: drawSamples r.2 pool k it

/-- The Monte-Carlo statistics of `connectivity_zscore`: the average
shortest path of each random sample, the generator freshly seeded with
the fixed seed `42` on every call. -/
def randomLengths (g : NXGraph) (k iterations : Nat) : List PFloat :=
  (drawSamples 42 g.nodes k iterations).map
    (fun sample => average_shortest_path g sample)

/-- The finite value of a statistic, when it has one. -/
def toQ : PFloat → Option ℚ
  | .fin q => some q
  | _ => none

/-- NumPy `np.nanmean`: `NaN` entries are ignored; any infinity makes the
mean infinite; the empty mean is `NaN`. -/
def nanmeanP (xs : List PFloat) : PFloat :=
  let ys := xs.filter (fun x => decide (x ≠ PFloat.nan))
  if ys.isEmpty then .nan
  else if ys.contains PFloat.inf then .inf
  else .fin ((ys.filterMap toQ).sum / ys.length)

/-- NumPy `np.nanstd` represented by its variance: `none` models a `NaN`
standard deviation (empty non-`NaN` sample, or an infinity among the
samples); `some v` is the population variance `σ²`, so numpy's `σ` is
`√v` and `σ = 0 ↔ v = 0`. -/
def nanvarP (xs : List PFloat) : Option ℚ :=
  let ys := xs.filter (fun x => decide (x ≠ PFloat.nan))
  if ys.isEmpty then none
  else if ys.contains PFloat.inf then none
  else
    let qs := ys.filterMap toQ
    let m := qs.sum / qs.length
    some ((qs.map (fun q => (q - m) ^ 2)).sum / qs.length)

/-- The z-score result: `NaN`, or a finite value encoded as the pair of
the numerator `observed - mu` and the variance `v`, standing for
`(observed - mu) / √v` with `v ≠ 0`. -/
inductive ZRes where
  | nan : ZRes
  | zval : ℚ → ℚ → ZRes
deriving DecidableEq, Repr

/-- Source `scoring.interconnectivity.connectivity_zscore`: `NaN` when the
observed statistic is `NaN` or infinite, when fewer than two queried
nodes are in the graph, or when the random distribution has zero or
`NaN` standard deviation; otherwise the z-score of the observed value
against the Monte-Carlo sample. -/
def connectivity_zscore (g : NXGraph) (nodes : List String)
    (iterations : Nat := 1000) : ZRes :=
  match average_shortest_path g nodes with
  | .nan => .nan
  | .inf => .nan
  | .fin observed =>
    let sub_nodes := nodes.filter (fun n => g.nodes.contains n)
    if sub_nodes.length < 2 then .nan
    else
      let rls := randomLengths g sub_nodes.length iterations
      match nanvarP rls with
      | none => .nan
      | some v =>
        if v = 0 then .nan
        else
          match nanmeanP rls with
          | .fin m => .zval (observed - m) v
          | _ => .nan

/-- The function `connectivity_zscore` as run against an ambient process-global RNG
world: the function builds its own generator from the literal seed `42`,
so the ambient state is never consulted. -/
def connectivity_zscore_run (g : NXGraph) (nodes : List String)
    (iterations : Nat) (globalRngState : Nat) : ZRes :=
  connectivity_zscore g nodes iterations

/-- A two-node graph whose shortest-path oracle never finds a path. -/
def disconnectedPair : NXGraph := ⟨["A", "B"], fun _ _ => none⟩

/-! ## Lemmas and claim theorems -/

theorem mem_dedupByAux {α κ : Type} [DecidableEq κ] {key : α → κ}
    {seen : List κ} {l : List α} {x : α} (h : x ∈ dedupByAux key seen l) :
    x ∈ l ∧ key x ∉ seen := by
  induction l generalizing seen with
  | nil => simp [dedupByAux] at h
  | cons a as ih =>
    simp only [dedupByAux] at h
    by_cases hk : key a ∈ seen
    · rw [if_pos hk] at h
      rcases ih h with ⟨h1, h2⟩
      exact ⟨List.mem_cons_of_mem _ h1, h2⟩
    · rw [if_neg hk] at h
      rcases List.mem_cons.1 h with rfl | h'
      · exact ⟨List.mem_cons_self _ _, hk⟩
      · rcases ih h' with ⟨h1, h2⟩
        exact ⟨List.mem_cons_of_mem _ h1,
          fun hc => h2 (List.mem_cons_of_mem _ hc)⟩

theorem pairwise_dedupByAux {α κ : Type} [DecidableEq κ] (key : α → κ)
    (seen : List κ) (l : List α) :
    (dedupByAux key seen l).Pairwise (fun a b => key a ≠ key b) := by
  induction l generalizing seen with
  | nil => simp [dedupByAux]
  | cons a as ih =>
    simp only [dedupByAux]
    by_cases hk : key a ∈ seen
    · rw [if_pos hk]; exact ih seen
    · rw [if_neg hk]
      refine List.Pairwise.cons ?_ (ih _)
      intro b hb hab
      exact (mem_dedupByAux hb).2 (hab ▸ List.mem_cons_self _ _)

theorem find?_dedupByAux {α κ : Type} [DecidableEq κ] (key : α → κ)
    {seen : List κ} (l : List α) {k : κ} (hk : k ∉ seen) :
    (dedupByAux key seen l).find? (fun y => decide (key y = k)) =
      l.find? (fun y => decide (key y = k)) := by
  induction l generalizing seen with
  | nil => rfl
  | cons a as ih =>
    simp only [dedupByAux]
    by_cases hka : key a ∈ seen
    · rw [if_pos hka]
      have hne : ¬ key a = k := fun h => hk (h ▸ hka)
      rw [List.find?_cons_of_neg _ (by simpa using hne)]
      exact ih hk
    · rw [if_neg hka]
      by_cases heq : key a = k
      · rw [List.find?_cons_of_pos _ (by simpa using heq),
          List.find?_cons_of_pos _ (by simpa using heq)]
      · rw [List.find?_cons_of_neg _ (by simpa using heq),
          List.find?_cons_of_neg _ (by simpa using heq)]
        refine ih ?_
        intro hc
        rcases List.mem_cons.1 hc with h | h
        · exact heq h.symm
        · exact hk h

theorem find?_eq_of_mem_pairwise {α κ : Type} [DecidableEq κ] {key : α → κ}
    {l : List α} {r : α}
    (hp : l.Pairwise (fun a b => key a ≠ key b)) (hr : r ∈ l) :
    l.find? (fun y => decide (key y = key r)) = some r := by
  induction l with
  | nil => simp at hr
  | cons a as ih =>
    rcases List.mem_cons.1 hr with rfl | h'
    · exact List.find?_cons_of_pos _ (by simp)
    · have ha : key a ≠ key r := (List.pairwise_cons.1 hp).1 r h'
      rw [List.find?_cons_of_neg _ (by simpa using ha)]
      exact ih (List.pairwise_cons.1 hp).2 h'

theorem find?_congr_mem {α : Type} {l : List α} {p q : α → Bool}
    (h : ∀ x ∈ l, p x = q x) : l.find? p = l.find? q := by
  induction l with
  | nil => rfl
  | cons a as ih =>
    have ha := h a (List.mem_cons_self a as)
    cases hqa : q a with
    | true =>
      rw [List.find?_cons_of_pos _ (ha.trans hqa),
        List.find?_cons_of_pos _ hqa]
    | false =>
      rw [List.find?_cons_of_neg _ (by simp [ha, hqa]),
        List.find?_cons_of_neg _ (by simp [hqa])]
      exact ih (fun x hx => h x (List.mem_cons_of_mem _ hx))

theorem normalize_signed_record_fields {nm : String} {rec : SrcRecord}
    {r : PEdgeRow} (h : normalize_signed_record nm rec = some r) :
    r.source = nm ∧ ∃ s, r.sign = some s := by
  unfold normalize_signed_record at h
  dsimp only at h
  repeat split at h
  all_goals first
    | (cases h; exact ⟨rfl, _, rfl⟩)
    | simp at h

theorem normalize_string_record_fields {rec : SrcRecord} {r : PEdgeRow}
    (h : normalize_string_record rec = some r) :
    r.source = "STRING" ∧ r.relation = "physical_interaction" ∧
      r.sign = none := by
  unfold normalize_string_record at h
  dsimp only at h
  repeat split at h
  all_goals first
    | (cases h; exact ⟨rfl, rfl, rfl⟩)
    | simp at h

theorem normalize_drug_target_record_source {nm : String} {rec : SrcRecord}
    {r : DTRow} (h : normalize_drug_target_record nm rec = some r) :
    r.source = nm := by
  unfold normalize_drug_target_record at h
  repeat split at h
  all_goals first
    | (cases h; rfl)
    | simp at h

theorem mem_normalize_signed_source {recs : List SrcRecord} {nm : String}
    {r : PEdgeRow} (h : r ∈ normalize_signed_edges recs nm) : r.source = nm := by
  have := (mem_dedupByAux h).1
  rcases List.mem_filterMap.1 this with ⟨rec, _, hrec⟩
  exact (normalize_signed_record_fields hrec).1

theorem mem_normalize_string_fields {recs : List SrcRecord} {r : PEdgeRow}
    (h : r ∈ normalize_string recs) :
    r.source = "STRING" ∧ r.relation = "physical_interaction" ∧
      r.sign = none := by
  have := (mem_dedupByAux h).1
  rcases List.mem_filterMap.1 this with ⟨rec, _, hrec⟩
  exact normalize_string_record_fields hrec

theorem mem_normalize_drug_targets_source {recs : List SrcRecord}
    {nm : String} {r : DTRow} (h : r ∈ normalize_drug_targets recs nm) :
    r.source = nm := by
  have := (mem_dedupByAux h).1
  rcases List.mem_filterMap.1 this with ⟨rec, _, hrec⟩
  exact normalize_drug_target_record_source hrec

/-- For rows of the STRING class, equality on the full composite key
agrees with equality on the `(src, dst, source)` key used by the STRING
dedup, as soon as both rows carry the STRING constants. -/
theorem key5_eq_iff_key3 {y r : PEdgeRow}
    (hy : y.source = "STRING" ∧ y.relation = "physical_interaction" ∧
      y.sign = none)
    (hr : r.source = "STRING" ∧ r.relation = "physical_interaction" ∧
      r.sign = none) :
    (key5 y = key5 r) ↔ (key3 y = key3 r) := by
  simp only [key5, key3, Prod.mk.injEq]
  constructor
  · rintro ⟨h1, h2, -, -, h5⟩
    exact ⟨h1, h2, h5⟩
  · rintro ⟨h1, h2, h3⟩
    refine ⟨h1, h2, ?_, ?_, h3⟩
    · rw [hy.2.1, hr.2.1]
    · rw [hy.2.2, hr.2.2]

/-- C4: after normalization and assembly the protein-edge table has at
most one row per composite key `(src_gene_id, dst_gene_id, relation,
sign, source)` and the drug-target table at most one row per
`(drug_id, target_id, source)` (pairwise distinct keys); moreover each
retained row is the first occurrence of its key, in input order, among
the concatenated per-record normalizer outputs. -/
theorem assembled_tables_unique_and_first_wins
    (omni signor strng dc iuphar : List SrcRecord) :
    (assemble_protein_edges omni signor strng).Pairwise
        (fun a b => key5 a ≠ key5 b) ∧
    (∀ r ∈ assemble_protein_edges omni signor strng,
      (omni.filterMap (normalize_signed_record "OmniPath") ++
        signor.filterMap (normalize_signed_record "SIGNOR") ++
        strng.filterMap normalize_string_record).find?
          (fun y => decide (key5 y = key5 r)) = some r) ∧
    (assemble_drug_target dc iuphar).Pairwise
        (fun a b => keyDT a ≠ keyDT b) ∧
    (∀ r ∈ assemble_drug_target dc iuphar,
      (dc.filterMap (normalize_drug_target_record "DrugCentral") ++
        iuphar.filterMap (normalize_drug_target_record "IUPHAR")).find?
          (fun y => decide (keyDT y = keyDT r)) = some r) := by
  refine ⟨pairwise_dedupByAux key5 [] _, ?_, ?_, ?_⟩
  · -- protein edges: first occurrence in concatenated input order wins
    intro r hr
    have htab : (dedupByAux key5 []
        (normalize_signed_edges omni "OmniPath" ++
          normalize_signed_edges signor "SIGNOR" ++
          normalize_string strng)).find?
        (fun y => decide (key5 y = key5 r)) = some r :=
      find?_eq_of_mem_pairwise (pairwise_dedupByAux key5 [] _) hr
    have hcat : (normalize_signed_edges omni "OmniPath" ++
        normalize_signed_edges signor "SIGNOR" ++
        normalize_string strng).find?
        (fun y => decide (key5 y = key5 r)) = some r := by
      rw [← find?_dedupByAux key5 _ (List.not_mem_nil (key5 r))]
      exact htab
    have hO : (normalize_signed_edges omni "OmniPath").find?
        (fun y => decide (key5 y = key5 r)) =
        (omni.filterMap (normalize_signed_record "OmniPath")).find?
          (fun y => decide (key5 y = key5 r)) :=
      find?_dedupByAux key5 _ (List.not_mem_nil (key5 r))
    have hS : (normalize_signed_edges signor "SIGNOR").find?
        (fun y => decide (key5 y = key5 r)) =
        (signor.filterMap (normalize_signed_record "SIGNOR")).find?
          (fun y => decide (key5 y = key5 r)) :=
      find?_dedupByAux key5 _ (List.not_mem_nil (key5 r))
    have hSt : (normalize_string strng).find?
        (fun y => decide (key5 y = key5 r)) =
        (strng.filterMap normalize_string_record).find?
          (fun y => decide (key5 y = key5 r)) := by
      by_cases hsrc : r.source = "STRING"
      · -- r is itself a STRING-class row
        have hrmem := (mem_dedupByAux hr).1
        have hrC : r ∈ normalize_string strng := by
          rcases List.mem_append.1 hrmem with hAB | hC
          · rcases List.mem_append.1 hAB with hA | hB
            · exact absurd (mem_normalize_signed_source hA ▸ hsrc)
                (by decide)
            · exact absurd (mem_normalize_signed_source hB ▸ hsrc)
                (by decide)
          · exact hC
        have hrf := mem_normalize_string_fields hrC
        have hcong5to3 : ∀ y ∈ strng.filterMap normalize_string_record,
            (decide (key5 y = key5 r) : Bool) = decide (key3 y = key3 r) := by
          intro y hy
          rcases List.mem_filterMap.1 hy with ⟨rec, _, hrec⟩
          simp only [decide_eq_decide]
          exact key5_eq_iff_key3 (normalize_string_record_fields hrec) hrf
        calc (normalize_string strng).find? (fun y => decide (key5 y = key5 r))
            = (normalize_string strng).find?
                (fun y => decide (key3 y = key3 r)) := by
              refine find?_congr_mem ?_
              intro y hy
              have hy' := (mem_dedupByAux hy).1
              exact hcong5to3 y hy'
          _ = (strng.filterMap normalize_string_record).find?
                (fun y => decide (key3 y = key3 r)) :=
              find?_dedupByAux key3 _ (List.not_mem_nil (key3 r))
          _ = (strng.filterMap normalize_string_record).find?
                (fun y => decide (key5 y = key5 r)) :=
              (find?_congr_mem hcong5to3).symm
      · -- r is not a STRING row, so neither side finds anything
        have hnone : ∀ y ∈ strng.filterMap normalize_string_record,
            ¬ ((fun y => decide (key5 y = key5 r)) y = true) := by
          intro y hy
          rcases List.mem_filterMap.1 hy with ⟨rec, _, hrec⟩
          have hys := (normalize_string_record_fields hrec).1
          simp only [decide_eq_true_eq]
          intro hk
          have := congrArg (fun k => k.2.2.2.2) hk
          exact hsrc (by simpa [key5, hys] using this.symm)
        have e1 : (strng.filterMap normalize_string_record).find?
            (fun y => decide (key5 y = key5 r)) = none :=
          List.find?_eq_none.2 hnone
        have e2 : (normalize_string strng).find?
            (fun y => decide (key5 y = key5 r)) = none :=
          List.find?_eq_none.2 (fun y hy => hnone y (mem_dedupByAux hy).1)
        rw [e1, e2]
    rw [List.find?_append, List.find?_append, ← hO, ← hS, ← hSt,
      ← List.find?_append, ← List.find?_append]
    exact hcat
  · -- drug-target table: pairwise distinct composite keys
    refine List.pairwise_append.2
      ⟨pairwise_dedupByAux keyDT [] _, pairwise_dedupByAux keyDT [] _, ?_⟩
    intro a ha b hb hk
    have hsa := mem_normalize_drug_targets_source ha
    have hsb := mem_normalize_drug_targets_source hb
    have := congrArg (fun k => k.2.2) hk
    simp only [keyDT, hsa, hsb] at this
    exact absurd this (by decide)
  · -- drug-target table: first occurrence wins
    intro r hr
    rcases List.mem_append.1 hr with hA | hB
    · have h1 : (normalize_drug_targets dc "DrugCentral").find?
          (fun y => decide (keyDT y = keyDT r)) = some r :=
        find?_eq_of_mem_pairwise (pairwise_dedupByAux keyDT [] _) hA
      have h2 : (dc.filterMap (normalize_drug_target_record "DrugCentral")).find?
          (fun y => decide (keyDT y = keyDT r)) = some r := by
        rw [← find?_dedupByAux keyDT _ (List.not_mem_nil (keyDT r))]
        exact h1
      rw [List.find?_append, h2]
      rfl
    · have hrs := mem_normalize_drug_targets_source hB
      have hnone : (dc.filterMap
          (normalize_drug_target_record "DrugCentral")).find?
          (fun y => decide (keyDT y = keyDT r)) = none := by
        refine List.find?_eq_none.2 ?_
        intro y hy
        rcases List.mem_filterMap.1 hy with ⟨rec, _, hrec⟩
        have hys := normalize_drug_target_record_source hrec
        simp only [decide_eq_true_eq]
        intro hk
        have := congrArg (fun k => k.2.2) hk
        simp only [keyDT, hys, hrs] at this
        exact absurd this (by decide)
      have h1 : (normalize_drug_targets iuphar "IUPHAR").find?
          (fun y => decide (keyDT y = keyDT r)) = some r :=
        find?_eq_of_mem_pairwise (pairwise_dedupByAux keyDT [] _) hB
      have h2 : (iuphar.filterMap (normalize_drug_target_record "IUPHAR")).find?
          (fun y => decide (keyDT y = keyDT r)) = some r := by
        rw [← find?_dedupByAux keyDT _ (List.not_mem_nil (keyDT r))]
        exact h1
      rw [List.find?_append, hnone, h2]
      rfl

/-- C1: evaluating `load_graph` at a stored table holding one `+`-signed
row and one null-signed row.  The `+` row yields an edge of weight `+1`,
but the null-signed row also yields an edge, with weight `-1` — the
loader's `1.0 if sign == "+" else -1.0` collapses null signs into
inhibitory edges instead of excluding them from the propagation graph. -/
theorem load_graph_gives_null_sign_rows_an_edge :
    load_graph [("G1", "G2", some "+"), ("G1", "G3", none)] =
      [⟨"G1", "G2", 1⟩, ⟨"G1", "G3", -1⟩] := by decide

/-- C7: on a graph with zero nodes both propagation functions return the
empty result frame whose columns are exactly `["node", "score"]`. -/
theorem empty_graph_returns_empty_frame (g : PropGraph) (h : g.nodes = [])
    (seeds : List (String × ℚ)) (alpha tol restart tol2 : ℚ) (m1 m2 : Nat) :
    heat_diffusion g seeds alpha tol m1 = ⟨["node", "score"], []⟩ ∧
    random_walk_with_restart g seeds restart tol2 m2 =
      ⟨["node", "score"], []⟩ := by
  have hl : g.nodes.length = 0 := by rw [h]; rfl
  constructor
  · simp [heat_diffusion, hl]
  · simp [random_walk_with_restart, hl]

/-- Witness for C7 at the concrete empty graph. -/
theorem empty_graph_returns_empty_frame_witness :
    heat_diffusion ⟨[], []⟩ [("A", 1)] (7/10) (1/1000000) 100 =
      ⟨["node", "score"], []⟩ :=
  (empty_graph_returns_empty_frame ⟨[], []⟩ rfl [("A", 1)]
    (7/10) (1/1000000) (3/10) (1/1000000) 100 200).1

/-- Witness for C4: with two IUPHAR records sharing
`(drug_id, target_id, source)`, the retained row is the first-seen one. -/
theorem assembled_tables_unique_and_first_wins_witness :
    (([] : List SrcRecord).filterMap
        (normalize_drug_target_record "DrugCentral") ++
      [iupharRec1, iupharRec2].filterMap
        (normalize_drug_target_record "IUPHAR")).find?
      (fun y => decide (keyDT y = keyDT iupharRow1)) = some iupharRow1 :=
  (assembled_tables_unique_and_first_wins [] [] [] []
    [iupharRec1, iupharRec2]).2.2.2 iupharRow1 (by decide)

/-- C5: for every record whose source and target identifiers resolve,
the normalizer drops the record exactly when the precedence-based sign
resolution fails, and any emitted row carries exactly the sign that the
precedence assigns. -/
theorem normalize_signed_record_sign_precedence (nm : String)
    (record : SrcRecord)
    (hsrc : (_first record srcKeys).isSome = true)
    (hdst : (_first record dstKeys).isSome = true) :
    (normalize_signed_record nm record = none ↔
      specResolveSign record = none) ∧
    (∀ r, normalize_signed_record nm record = some r →
      r.sign = specResolveSign record) := by
  rcases Option.isSome_iff_exists.1 hsrc with ⟨src, hs⟩
  rcases Option.isSome_iff_exists.1 hdst with ⟨dst, hd⟩
  simp only [normalize_signed_record, specResolveSign, hs, hd]
  by_cases h1 : (stimulationKeys.any fun k => _truthy (rget record k)) = true
  · simp only [h1, if_true]
    refine ⟨by simp, ?_⟩
    intro r hr
    cases hr
    rfl
  · simp only [h1, if_false, Bool.false_eq_true]
    by_cases h2 : (inhibitionKeys.any fun k => _truthy (rget record k)) = true
    · simp only [h2, if_true]
      refine ⟨by simp, ?_⟩
      intro r hr
      cases hr
      rfl
    · simp only [h2, if_false, Bool.false_eq_true]
      by_cases h3 : containsSub (pyLower ((_first record ["EFFECT"]).getD ""))
          "activ" = true
      · simp only [h3, if_true]
        refine ⟨by simp, ?_⟩
        intro r hr
        cases hr
        rfl
      · simp only [h3, if_false, Bool.false_eq_true]
        by_cases h4 : (containsSub (pyLower ((_first record ["EFFECT"]).getD ""))
              "inhib" ||
            containsSub (pyLower ((_first record ["EFFECT"]).getD ""))
              "down") = true
        · simp only [h4, if_true]
          refine ⟨by simp, ?_⟩
          intro r hr
          cases hr
          rfl
        · simp only [h4, if_false, Bool.false_eq_true]
          exact ⟨by simp, by simp⟩

/-- Witness for C5 at a concrete stimulation-flagged record. -/
theorem normalize_signed_record_sign_precedence_witness :
    omniStimRow.sign = specResolveSign omniStimRec :=
  (normalize_signed_record_sign_precedence "OmniPath" omniStimRec
    (by decide) (by decide)).2 omniStimRow (by decide)

theorem iterF_comm (F : List ℚ → List ℚ) (k : Nat) (s : List ℚ) :
    iterF F k (F s) = F (iterF F k s) := by
  induction k with
  | zero => rfl
  | succ k ih => simp only [iterF, ih]

theorem iterF_shift (F : List ℚ → List ℚ) (k : Nat) (s : List ℚ) :
    iterF F (k + 1) s = iterF F k (F s) := by
  simp only [iterF, iterF_comm]

/-- The propagation loop halts at some iterate `iterF F K s0`: `K` never
exceeds the iteration budget, no earlier update delta was below the
tolerance, and if the loop stopped before exhausting the budget then it
stopped exactly because the `K`-th delta fell below the tolerance. -/
theorem propLoop_characterization (F : List ℚ → List ℚ) (tol : ℚ) :
    ∀ (maxIter : Nat) (s0 : List ℚ), ∃ K, K ≤ maxIter ∧
      propLoop F tol maxIter s0 = iterF F K s0 ∧
      (∀ j, j + 1 < K → ¬ l1dist (iterF F (j+1) s0) (iterF F j s0) < tol) ∧
      (K < maxIter → 1 ≤ K ∧
        l1dist (iterF F K s0) (iterF F (K-1) s0) < tol) ∧
      (1 ≤ maxIter → 1 ≤ K) := by
  intro maxIter
  induction maxIter with
  | zero =>
    intro s0
    exact ⟨0, le_rfl, rfl, fun j hj => absurd hj (by omega),
      fun h => absurd h (by omega), fun h => absurd h (by omega)⟩
  | succ n ih =>
    intro s0
    by_cases h : l1dist (F s0) s0 < tol
    · refine ⟨1, by omega, ?_, fun j hj => absurd hj (by omega), ?_,
        fun _ => le_rfl⟩
      · simp only [propLoop, h, if_pos]
        rfl
      · intro _
        exact ⟨le_rfl, by simpa only [iterF] using h⟩
    · rcases ih (F s0) with ⟨K, hKle, hres, hmin, hconv, -⟩
      refine ⟨K + 1, by omega, ?_, ?_, ?_, fun _ => by omega⟩
      · have : propLoop F tol (n + 1) s0 = propLoop F tol n (F s0) := by
          simp only [propLoop, h, if_neg, if_false]
        rw [this, hres, ← iterF_shift]
      · intro j hj
        cases j with
        | zero => simpa only [iterF] using h
        | succ j =>
          have hd := hmin j (by omega)
          rw [iterF_shift F (j + 1) s0, iterF_shift F j s0]
          exact hd
      · intro hK
        have hK' : K < n := by omega
        rcases hconv hK' with ⟨hK1, hd⟩
        refine ⟨by omega, ?_⟩
        have e1 : iterF F (K + 1) s0 = iterF F K (F s0) := iterF_shift F K s0
        have e2 : iterF F (K + 1 - 1) s0 = iterF F (K - 1) (F s0) := by
          have : K + 1 - 1 = (K - 1) + 1 := by omega
          rw [this, iterF_shift]
        rw [e1, e2]
        exact hd

theorem transitionMatrix_eq_spec (adj : List (List ℚ)) :
    transitionMatrix adj = specTransition adj := by
  induction adj with
  | nil => rfl
  | cons row rest ih =>
    simp only [transitionMatrix, specTransition, degreeVec, List.map_cons,
      List.zipWith_cons_cons, List.map_map] at ih ⊢
    exact List.cons_eq_cons.mpr ⟨rfl, ih⟩

theorem map_eq_replicate_of_all_zero {row : List ℚ} {f : ℚ → ℚ}
    (hf : ∀ w ∈ row, f w = 0) :
    row.map f = List.replicate row.length 0 := by
  induction row with
  | nil => rfl
  | cons w rest ih =>
    simp only [List.map_cons, List.length_cons, List.replicate_succ]
    exact List.cons_eq_cons.mpr ⟨hf w (List.mem_cons_self w rest),
      ih (fun x hx => hf x (List.mem_cons_of_mem _ hx))⟩

/-- C2 (amended): heat diffusion computes exactly the claimed iteration.
The transition matrix divides every adjacency row by its weight sum,
rows of weight sum zero by `1` instead (so a node with no outgoing edges
has an all-zero transition row and does not propagate, while a node
whose outgoing weights cancel keeps its unnormalized row); the returned
rows are the nodes zipped with `iterF (heatUpdate g seeds alpha) K seed`
sorted by descending score, where `K ≤ max_iter`, no earlier L1 delta of
consecutive iterates was below `tol`, and a stop before `max_iter`
happens exactly at the first delta below `tol`.  Non-convergence simply
returns the `max_iter`-th iterate. -/
theorem heat_diffusion_iteration_spec (g : PropGraph)
    (seeds : List (String × ℚ)) (alpha tol : ℚ) (maxIter : Nat) :
    transitionMatrix g.adj = specTransition g.adj ∧
    (∀ i row, g.adj.get? i = some row → (∀ w ∈ row, w = 0) →
      (specTransition g.adj).get? i = some (List.replicate row.length 0)) ∧
    (∃ K ≤ maxIter,
      (heat_diffusion g seeds alpha tol maxIter).rows =
        sortByScoreDesc (g.nodes.zip
          (iterF (heatUpdate g seeds alpha) K (buildSeedVec g.nodes seeds))) ∧
      (∀ j, j + 1 < K →
        ¬ l1dist (iterF (heatUpdate g seeds alpha) (j + 1)
            (buildSeedVec g.nodes seeds))
          (iterF (heatUpdate g seeds alpha) j
            (buildSeedVec g.nodes seeds)) < tol) ∧
      (K < maxIter → 1 ≤ K ∧
        l1dist (iterF (heatUpdate g seeds alpha) K
            (buildSeedVec g.nodes seeds))
          (iterF (heatUpdate g seeds alpha) (K - 1)
            (buildSeedVec g.nodes seeds)) < tol)) := by
  refine ⟨transitionMatrix_eq_spec g.adj, ?_, ?_⟩
  · intro i row h hz
    simp only [specTransition]
    rw [List.get?_map, h]
    exact congrArg some (map_eq_replicate_of_all_zero
      (fun w hw => by rw [hz w hw]; exact zero_div _))
  · rcases propLoop_characterization (heatUpdate g seeds alpha) tol maxIter
      (buildSeedVec g.nodes seeds) with ⟨K, hKle, hres, hmin, hconv, -⟩
    refine ⟨K, hKle, ?_, hmin, hconv⟩
    by_cases hn : g.nodes.length = 0
    · have hnil : g.nodes = [] := List.length_eq_zero.1 hn
      simp [heat_diffusion, hn, hnil, sortByScoreDesc]
    · simp only [heat_diffusion, hn, if_neg, if_false]
      simp only [heatUpdate] at hres
      rw [transitionMatrix_eq_spec g.adj]
      rw [hres]
      rfl

/-- Witness for C2 on a concrete two-node graph. -/
theorem heat_diffusion_iteration_spec_witness :
    transitionMatrix ([[0, 1], [1, 0]] : List (List ℚ)) =
      specTransition [[0, 1], [1, 0]] :=
  (heat_diffusion_iteration_spec ⟨["A", "B"], [[0, 1], [1, 0]]⟩ [("A", 1)]
    (7/10) (1/1000000) 100).1

theorem l1dist_cons (x y : ℚ) (xs ys : List ℚ) :
    l1dist (x :: xs) (y :: ys) = |x - y| + l1dist xs ys := rfl

theorem l1dist_nil : l1dist ([] : List ℚ) [] = 0 := rfl

/-- C2 counterexample: node `A` of `cancelGraph` has weighted out-degree
zero, yet its transition row is `[0, 1, -1]` — not all zeros — and heat
diffusion seeded at `A` gives `B` the non-zero score `21/100`, so a
zero-out-degree node can still propagate. -/
theorem zero_out_degree_row_still_propagates :
    (degreeVec cancelGraph.adj).head? = some 0 ∧
    (transitionMatrix cancelGraph.adj).head? = some [0, 1, -1] ∧
    scoreOf (heat_diffusion cancelGraph [("A", 1)] (7/10) (1/1000000) 100) "B"
      = some (21/100) ∧
    (21 : ℚ)/100 ≠ 0 := by
  refine ⟨by norm_num [degreeVec, cancelGraph],
    by norm_num [transitionMatrix, degreeVec, cancelGraph], ?_, by norm_num⟩
  have hsv : buildSeedVec cancelGraph.nodes [("A", 1)] = [1, 0, 0] := by decide
  have hP : transitionMatrix cancelGraph.adj =
      [[0, 1, -1], [0, 0, 0], [0, 0, 0]] := by
    norm_num [transitionMatrix, degreeVec, cancelGraph]
  have hstep : ∀ a b c : ℚ,
      heatStep (7/10) [1, 0, 0] [[0, 1, -1], [0, 0, 0], [0, 0, 0]] 3 [a, b, c] =
        [7/10, 3/10 * a, -(3/10 * a)] := by
    intro a b c
    simp [heatStep, matTvec, scaleVec, vecAdd, List.zip]
    norm_num
  have hrun : heat_diffusion cancelGraph [("A", 1)] (7/10) (1/1000000) 100 =
      ⟨["node", "score"], sortByScoreDesc (cancelGraph.nodes.zip
        (propLoop (heatStep (7/10) [1, 0, 0]
            [[0, 1, -1], [0, 0, 0], [0, 0, 0]] 3)
          (1/1000000) 100 [1, 0, 0]))⟩ := by
    simp only [heat_diffusion]
    rw [if_neg (by decide)]
    rw [hsv, hP]
    norm_num [cancelGraph]
  rcases propLoop_characterization
      (heatStep (7/10) [1, 0, 0] [[0, 1, -1], [0, 0, 0], [0, 0, 0]] 3)
      (1/1000000) 100 [1, 0, 0] with ⟨K, hKle, hres, hmin, hconv, hone⟩
  have h1 : iterF (heatStep (7/10) [1, 0, 0]
      [[0, 1, -1], [0, 0, 0], [0, 0, 0]] 3) 1 [1, 0, 0] =
      [7/10, 3/10, -(3/10)] := by
    have e : iterF (heatStep (7/10) [1, 0, 0]
        [[0, 1, -1], [0, 0, 0], [0, 0, 0]] 3) 1 [1, 0, 0] =
        heatStep (7/10) [1, 0, 0] [[0, 1, -1], [0, 0, 0], [0, 0, 0]] 3
          [1, 0, 0] := rfl
    rw [e, hstep]
    norm_num
  have h2 : iterF (heatStep (7/10) [1, 0, 0]
      [[0, 1, -1], [0, 0, 0], [0, 0, 0]] 3) 2 [1, 0, 0] =
      [7/10, 21/100, -(21/100)] := by
    have e : iterF (heatStep (7/10) [1, 0, 0]
        [[0, 1, -1], [0, 0, 0], [0, 0, 0]] 3) 2 [1, 0, 0] =
        heatStep (7/10) [1, 0, 0] [[0, 1, -1], [0, 0, 0], [0, 0, 0]] 3
          (iterF (heatStep (7/10) [1, 0, 0]
            [[0, 1, -1], [0, 0, 0], [0, 0, 0]] 3) 1 [1, 0, 0]) := rfl
    rw [e, h1, hstep]
    norm_num
  have h3 : iterF (heatStep (7/10) [1, 0, 0]
      [[0, 1, -1], [0, 0, 0], [0, 0, 0]] 3) 3 [1, 0, 0] =
      [7/10, 21/100, -(21/100)] := by
    have e : iterF (heatStep (7/10) [1, 0, 0]
        [[0, 1, -1], [0, 0, 0], [0, 0, 0]] 3) 3 [1, 0, 0] =
        heatStep (7/10) [1, 0, 0] [[0, 1, -1], [0, 0, 0], [0, 0, 0]] 3
          (iterF (heatStep (7/10) [1, 0, 0]
            [[0, 1, -1], [0, 0, 0], [0, 0, 0]] 3) 2 [1, 0, 0]) := rfl
    rw [e, h2, hstep]
    norm_num
  have hKle3 : K ≤ 3 := by
    by_contra hgt
    refine hmin 2 (by omega) ?_
    rw [h3, h2]
    simp [l1dist]
  have hK1 : 1 ≤ K := hone (by omega)
  have hK : K = 3 := by
    rcases hconv (by omega) with ⟨-, hd⟩
    interval_cases K
    · rw [show (1:ℕ) - 1 = 0 from rfl] at hd
      rw [h1] at hd
      simp only [iterF] at hd
      rw [show l1dist [(7:ℚ)/10, 3/10, -(3/10)] [1, 0, 0] = 9/10 from by
        simp only [l1dist_cons, l1dist_nil]
        rw [show |(7:ℚ)/10 - 1| = 3/10 from by norm_num,
          show |(3:ℚ)/10 - 0| = 3/10 from by norm_num,
          show |(-(3/10) : ℚ) - 0| = 3/10 from by norm_num]
        norm_num] at hd
      norm_num at hd
    · rw [show (2:ℕ) - 1 = 1 from rfl] at hd
      rw [h2, h1] at hd
      rw [show l1dist [(7:ℚ)/10, 21/100, -(21/100)]
          [7/10, 3/10, -(3/10)] = 18/100 from by
        simp only [l1dist_cons, l1dist_nil]
        rw [show |(7:ℚ)/10 - 7/10| = 0 from by norm_num,
          show |(21:ℚ)/100 - 3/10| = 9/100 from by norm_num,
          show |(-(21/100) : ℚ) - -(3/10)| = 9/100 from by norm_num]
        norm_num] at hd
      norm_num at hd
    · rfl
  rw [hrun]
  rw [hres, hK, h3]
  show scoreOf ⟨["node", "score"], sortByScoreDesc
    [("A", 7/10), ("B", 21/100), ("C", -(21/100))]⟩ "B" = some (21/100)
  norm_num [sortByScoreDesc, insertDesc, scoreOf]
  decide

theorem twoNode_transition :
    transitionMatrix twoNodeGraph.adj = [[0, 1], [1, 0]] := by
  norm_num [transitionMatrix, degreeVec, twoNodeGraph]

theorem twoNode_heat_step (a b : ℚ) :
    heatStep (7/10) [1, 0] [[0, 1], [1, 0]] 2 [a, b] =
      [7/10 + 3/10 * b, 3/10 * a] := by
  simp [heatStep, matTvec, scaleVec, vecAdd, List.zip]
  norm_num

theorem twoNode_rwr_step (a b : ℚ) :
    rwrStep (3/10) [1, 0] [[0, 1], [1, 0]] 2 [a, b] =
      [3/10 + 7/10 * b, 7/10 * a] := by
  simp [rwrStep, matTvec, scaleVec, vecAdd, List.zip]
  norm_num
  ring

theorem twoNode_heat_run (tol : ℚ) :
    heat_diffusion twoNodeGraph [("A", 1)] (7/10) tol 100 =
      ⟨["node", "score"], sortByScoreDesc (["A", "B"].zip
        (propLoop (heatStep (7/10) [1, 0] [[0, 1], [1, 0]] 2)
          tol 100 [1, 0]))⟩ := by
  have hsv : buildSeedVec twoNodeGraph.nodes [("A", 1)] = [1, 0] := by decide
  simp only [heat_diffusion]
  rw [if_neg (by decide)]
  rw [hsv, twoNode_transition]
  norm_num [twoNodeGraph]

theorem twoNode_rwr_seedvec :
    buildSeedVec twoNodeGraph.nodes
      ([("A", (1:ℚ))].map (fun p => (p.1, p.2 / rwrNorm [("A", 1)]))) =
      [1, 0] := by
  have h1 : rwrNorm [("A", (1:ℚ))] = 1 := by norm_num [rwrNorm]
  show buildSeedVec twoNodeGraph.nodes [("A", 1 / rwrNorm [("A", 1)])] = [1, 0]
  rw [h1, show (1:ℚ)/1 = 1 by norm_num]
  decide

theorem twoNode_rwr_run (tol : ℚ) :
    random_walk_with_restart twoNodeGraph [("A", 1)] (3/10) tol 200 =
      ⟨["node", "score"], sortByScoreDesc (["A", "B"].zip
        (propLoop (rwrStep (3/10) [1, 0] [[0, 1], [1, 0]] 2)
          tol 200 [1, 0]))⟩ := by
  simp only [random_walk_with_restart]
  rw [if_neg (by decide)]
  rw [twoNode_rwr_seedvec, twoNode_transition]
  norm_num [twoNodeGraph]

theorem scoreOf_sort_two (a b : ℚ) :
    scoreOf ⟨["node", "score"], sortByScoreDesc [("A", a), ("B", b)]⟩ "A"
      = some a ∧
    scoreOf ⟨["node", "score"], sortByScoreDesc [("A", a), ("B", b)]⟩ "B"
      = some b := by
  by_cases h : b < a
  · simp [sortByScoreDesc, insertDesc, scoreOf, h]
  · simp [sortByScoreDesc, insertDesc, scoreOf, h]

theorem twoNode_heat_invariant (k : Nat) :
    ∃ a b : ℚ, iterF (heatStep (7/10) [1, 0] [[0, 1], [1, 0]] 2) k [1, 0] =
      [a, b] ∧ 0 ≤ b ∧ b ≤ a ∧ a ≤ 1 ∧ 0 < a := by
  induction k with
  | zero => exact ⟨1, 0, rfl, le_rfl, by norm_num, le_rfl, by norm_num⟩
  | succ k ih =>
    rcases ih with ⟨a, b, hab, h0b, hba, ha1, h0a⟩
    refine ⟨7/10 + 3/10 * b, 3/10 * a, ?_, by linarith, by linarith,
      by linarith, by linarith⟩
    have e : iterF (heatStep (7/10) [1, 0] [[0, 1], [1, 0]] 2) (k+1) [1, 0] =
        heatStep (7/10) [1, 0] [[0, 1], [1, 0]] 2
          (iterF (heatStep (7/10) [1, 0] [[0, 1], [1, 0]] 2) k [1, 0]) := rfl
    rw [e, hab, twoNode_heat_step]

theorem twoNode_rwr_invariant (k : Nat) :
    ∃ a b : ℚ, iterF (rwrStep (3/10) [1, 0] [[0, 1], [1, 0]] 2) k [1, 0] =
      [a, b] ∧ 0 < a ∧ a ≤ 1 ∧ 0 ≤ b ∧ b ≤ 1 := by
  induction k with
  | zero => exact ⟨1, 0, rfl, by norm_num, le_rfl, le_rfl, by norm_num⟩
  | succ k ih =>
    rcases ih with ⟨a, b, hab, h0a, ha1, h0b, hb1⟩
    refine ⟨3/10 + 7/10 * b, 7/10 * a, ?_, by linarith, by linarith,
      by linarith, by linarith⟩
    have e : iterF (rwrStep (3/10) [1, 0] [[0, 1], [1, 0]] 2) (k+1) [1, 0] =
        rwrStep (3/10) [1, 0] [[0, 1], [1, 0]] 2
          (iterF (rwrStep (3/10) [1, 0] [[0, 1], [1, 0]] 2) k [1, 0]) := rfl
    rw [e, hab, twoNode_rwr_step]

theorem twoNode_rwr_iter1 :
    iterF (rwrStep (3/10) [1, 0] [[0, 1], [1, 0]] 2) 1 [1, 0] =
      [3/10, 7/10] := by
  have e : iterF (rwrStep (3/10) [1, 0] [[0, 1], [1, 0]] 2) 1 [1, 0] =
      rwrStep (3/10) [1, 0] [[0, 1], [1, 0]] 2 [1, 0] := rfl
  rw [e, twoNode_rwr_step]
  norm_num

theorem twoNode_rwr_iter2 :
    iterF (rwrStep (3/10) [1, 0] [[0, 1], [1, 0]] 2) 2 [1, 0] =
      [79/100, 21/100] := by
  have e : iterF (rwrStep (3/10) [1, 0] [[0, 1], [1, 0]] 2) 2 [1, 0] =
      rwrStep (3/10) [1, 0] [[0, 1], [1, 0]] 2
        (iterF (rwrStep (3/10) [1, 0] [[0, 1], [1, 0]] 2) 1 [1, 0]) := rfl
  rw [e, twoNode_rwr_iter1, twoNode_rwr_step]
  norm_num

theorem twoNode_rwr_iter3 :
    iterF (rwrStep (3/10) [1, 0] [[0, 1], [1, 0]] 2) 3 [1, 0] =
      [447/1000, 553/1000] := by
  have e : iterF (rwrStep (3/10) [1, 0] [[0, 1], [1, 0]] 2) 3 [1, 0] =
      rwrStep (3/10) [1, 0] [[0, 1], [1, 0]] 2
        (iterF (rwrStep (3/10) [1, 0] [[0, 1], [1, 0]] 2) 2 [1, 0]) := rfl
  rw [e, twoNode_rwr_iter2, twoNode_rwr_step]
  norm_num

theorem twoNode_rwr_iter4 :
    iterF (rwrStep (3/10) [1, 0] [[0, 1], [1, 0]] 2) 4 [1, 0] =
      [6871/10000, 3129/10000] := by
  have e : iterF (rwrStep (3/10) [1, 0] [[0, 1], [1, 0]] 2) 4 [1, 0] =
      rwrStep (3/10) [1, 0] [[0, 1], [1, 0]] 2
        (iterF (rwrStep (3/10) [1, 0] [[0, 1], [1, 0]] 2) 3 [1, 0]) := rfl
  rw [e, twoNode_rwr_iter3, twoNode_rwr_step]
  norm_num

theorem twoNode_rwr_iter5 :
    iterF (rwrStep (3/10) [1, 0] [[0, 1], [1, 0]] 2) 5 [1, 0] =
      [51903/100000, 48097/100000] := by
  have e : iterF (rwrStep (3/10) [1, 0] [[0, 1], [1, 0]] 2) 5 [1, 0] =
      rwrStep (3/10) [1, 0] [[0, 1], [1, 0]] 2
        (iterF (rwrStep (3/10) [1, 0] [[0, 1], [1, 0]] 2) 4 [1, 0]) := rfl
  rw [e, twoNode_rwr_iter4, twoNode_rwr_step]
  norm_num

theorem twoNode_delta0 : l1dist [(3:ℚ)/10, 7/10] [1, 0] = 7/5 := by
  simp only [l1dist_cons, l1dist_nil]
  rw [show |(3:ℚ)/10 - 1| = 7/10 from by norm_num,
    show |(7:ℚ)/10 - 0| = 7/10 from by norm_num]
  norm_num

theorem twoNode_delta1 : l1dist [(79:ℚ)/100, 21/100] [3/10, 7/10] = 49/50 := by
  simp only [l1dist_cons, l1dist_nil]
  rw [show |(79:ℚ)/100 - 3/10| = 49/100 from by norm_num,
    show |(21:ℚ)/100 - 7/10| = 49/100 from by norm_num]
  norm_num

theorem twoNode_delta2 :
    l1dist [(447:ℚ)/1000, 553/1000] [79/100, 21/100] = 343/500 := by
  simp only [l1dist_cons, l1dist_nil]
  rw [show |(447:ℚ)/1000 - 79/100| = 343/1000 from by norm_num,
    show |(553:ℚ)/1000 - 21/100| = 343/1000 from by norm_num]
  norm_num

theorem twoNode_delta3 :
    l1dist [(6871:ℚ)/10000, 3129/10000] [447/1000, 553/1000] =
      2401/5000 := by
  simp only [l1dist_cons, l1dist_nil]
  rw [show |(6871:ℚ)/10000 - 447/1000| = 2401/10000 from by norm_num,
    show |(3129:ℚ)/10000 - 553/1000| = 2401/10000 from by norm_num]
  norm_num

/-- From the fifth iterate on, the RWR iterates on the two-node graph
keep `a - b` within `3/20` of the fixed-point gap `3/17`, hence `b ≤ a`,
and both coordinates stay in the unit interval. -/
theorem twoNode_rwr_inv5 : ∀ k, 5 ≤ k → ∃ a b : ℚ,
    iterF (rwrStep (3/10) [1, 0] [[0, 1], [1, 0]] 2) k [1, 0] = [a, b] ∧
    |a - b - 3/17| ≤ 3/20 ∧ 0 < a ∧ a ≤ 1 ∧ 0 ≤ b ∧ b ≤ 1 := by
  intro k hk
  induction k, hk using Nat.le_induction with
  | base =>
    refine ⟨51903/100000, 48097/100000, twoNode_rwr_iter5, ?_, by norm_num,
      by norm_num, by norm_num, by norm_num⟩
    rw [abs_le]
    constructor <;> norm_num
  | succ k hk ih =>
    rcases ih with ⟨a, b, hab, hd, h0a, ha1, h0b, hb1⟩
    refine ⟨3/10 + 7/10 * b, 7/10 * a, ?_, ?_, by linarith, by linarith,
      by linarith, by linarith⟩
    · have e : iterF (rwrStep (3/10) [1, 0] [[0, 1], [1, 0]] 2)
          (k + 1) [1, 0] =
          rwrStep (3/10) [1, 0] [[0, 1], [1, 0]] 2
            (iterF (rwrStep (3/10) [1, 0] [[0, 1], [1, 0]] 2) k [1, 0]) := rfl
      rw [e, hab, twoNode_rwr_step]
    · have e2 : 3/10 + 7/10 * b - 7/10 * a - 3/17 =
          -((7/10) * (a - b - 3/17)) := by ring
      rw [e2, abs_neg, abs_mul,
        abs_of_nonneg (by norm_num : (0:ℚ) ≤ 7/10)]
      have h3 := abs_nonneg (a - b - 3/17)
      linarith

/-- C3 (amended): on the two-node graph `A — B` with weight `1.0` and
seed `{A: 1.0}`, heat diffusion returns `score(A) ≥ score(B)` with
`score(A) ∈ (0, 1]` at every tolerance; RWR returns `score(A) ∈ (0, 1]`
at every tolerance, and `score(A) ≥ score(B)` at the default tolerance
`1e-6` — but not at every tolerance (see the counterexample). -/
theorem two_node_seed_scores :
    (∀ tol : ℚ, ∃ a b : ℚ,
      scoreOf (heat_diffusion twoNodeGraph [("A", 1)] (7/10) tol 100) "A"
        = some a ∧
      scoreOf (heat_diffusion twoNodeGraph [("A", 1)] (7/10) tol 100) "B"
        = some b ∧
      b ≤ a ∧ 0 < a ∧ a ≤ 1) ∧
    (∀ tol : ℚ, ∃ a b : ℚ,
      scoreOf (random_walk_with_restart twoNodeGraph [("A", 1)]
        (3/10) tol 200) "A" = some a ∧
      scoreOf (random_walk_with_restart twoNodeGraph [("A", 1)]
        (3/10) tol 200) "B" = some b ∧
      0 < a ∧ a ≤ 1) ∧
    (∃ a b : ℚ,
      scoreOf (random_walk_with_restart twoNodeGraph [("A", 1)]
        (3/10) (1/1000000) 200) "A" = some a ∧
      scoreOf (random_walk_with_restart twoNodeGraph [("A", 1)]
        (3/10) (1/1000000) 200) "B" = some b ∧
      b ≤ a ∧ 0 < a ∧ a ≤ 1) := by
  refine ⟨?_, ?_, ?_⟩
  · intro tol
    rcases propLoop_characterization (heatStep (7/10) [1, 0]
      [[0, 1], [1, 0]] 2) tol 100 [1, 0] with ⟨K, -, hres, -, -, -⟩
    rcases twoNode_heat_invariant K with ⟨a, b, hab, h0b, hba, ha1, h0a⟩
    refine ⟨a, b, ?_, ?_, hba, h0a, ha1⟩
    · rw [twoNode_heat_run tol, hres, hab]
      exact (scoreOf_sort_two a b).1
    · rw [twoNode_heat_run tol, hres, hab]
      exact (scoreOf_sort_two a b).2
  · intro tol
    rcases propLoop_characterization (rwrStep (3/10) [1, 0]
      [[0, 1], [1, 0]] 2) tol 200 [1, 0] with ⟨K, -, hres, -, -, -⟩
    rcases twoNode_rwr_invariant K with ⟨a, b, hab, h0a, ha1, h0b, hb1⟩
    refine ⟨a, b, ?_, ?_, h0a, ha1⟩
    · rw [twoNode_rwr_run tol, hres, hab]
      exact (scoreOf_sort_two a b).1
    · rw [twoNode_rwr_run tol, hres, hab]
      exact (scoreOf_sort_two a b).2
  · rcases propLoop_characterization (rwrStep (3/10) [1, 0]
      [[0, 1], [1, 0]] 2) (1/1000000) 200 [1, 0]
      with ⟨K, hKle, hres, hmin, hconv, hone⟩
    have hK1 : 1 ≤ K := hone (by omega)
    have hK5 : 5 ≤ K := by
      by_contra hlt
      push_neg at hlt
      rcases hconv (by omega) with ⟨-, hd⟩
      interval_cases K
      · rw [show (1:ℕ) - 1 = 0 from rfl, twoNode_rwr_iter1] at hd
        simp only [iterF] at hd
        rw [twoNode_delta0] at hd
        norm_num at hd
      · rw [show (2:ℕ) - 1 = 1 from rfl, twoNode_rwr_iter2,
          twoNode_rwr_iter1] at hd
        rw [twoNode_delta1] at hd
        norm_num at hd
      · rw [show (3:ℕ) - 1 = 2 from rfl, twoNode_rwr_iter3,
          twoNode_rwr_iter2] at hd
        rw [twoNode_delta2] at hd
        norm_num at hd
      · rw [show (4:ℕ) - 1 = 3 from rfl, twoNode_rwr_iter4,
          twoNode_rwr_iter3] at hd
        rw [twoNode_delta3] at hd
        norm_num at hd
    rcases twoNode_rwr_inv5 K hK5 with ⟨a, b, hab, hd17, h0a, ha1, h0b, hb1⟩
    have hba : b ≤ a := by
      rcases abs_le.1 hd17 with ⟨hlo, -⟩
      linarith
    refine ⟨a, b, ?_, ?_, hba, h0a, ha1⟩
    · rw [twoNode_rwr_run (1/1000000), hres, hab]
      exact (scoreOf_sort_two a b).1
    · rw [twoNode_rwr_run (1/1000000), hres, hab]
      exact (scoreOf_sort_two a b).2

/-- C3 counterexample: with tolerance `2` the RWR loop stops after its
first iteration, returning `score(A) = 3/10 < 7/10 = score(B)` — so the
claimed `score(A) ≥ score(B)` does not hold at every tolerance. -/
theorem rwr_large_tolerance_flips_ranking :
    scoreOf (random_walk_with_restart twoNodeGraph [("A", 1)] (3/10) 2 200)
      "A" = some (3/10) ∧
    scoreOf (random_walk_with_restart twoNodeGraph [("A", 1)] (3/10) 2 200)
      "B" = some (7/10) ∧
    (3/10 : ℚ) < 7/10 := by
  rcases propLoop_characterization (rwrStep (3/10) [1, 0]
    [[0, 1], [1, 0]] 2) 2 200 [1, 0] with ⟨K, hKle, hres, hmin, hconv, hone⟩
  have hK1 : 1 ≤ K := hone (by omega)
  have hKle1 : K ≤ 1 := by
    by_contra h
    refine hmin 0 (by omega) ?_
    rw [twoNode_rwr_iter1]
    simp only [iterF]
    rw [twoNode_delta0]
    norm_num
  have hK : K = 1 := le_antisymm hKle1 hK1
  rw [hK] at hres
  refine ⟨?_, ?_, by norm_num⟩
  · rw [twoNode_rwr_run 2, hres, twoNode_rwr_iter1]
    exact (scoreOf_sort_two (3/10) (7/10)).1
  · rw [twoNode_rwr_run 2, hres, twoNode_rwr_iter1]
    exact (scoreOf_sort_two (3/10) (7/10)).2

theorem indexIn_get {nodes : List String} {x : String} {i : Nat}
    (h : indexIn nodes x = some i) : nodes.get? i = some x := by
  induction nodes generalizing i with
  | nil => simp [indexIn] at h
  | cons n rest ih =>
    simp only [indexIn] at h
    by_cases hn : n = x
    · rw [if_pos hn] at h
      cases h
      simp [hn]
    · rw [if_neg hn] at h
      rcases Option.map_eq_some'.1 h with ⟨j, hj, rfl⟩
      simpa using ih hj

theorem indexIn_ne {nodes : List String} {x y : String} {i j : Nat}
    (hxy : x ≠ y) (hx : indexIn nodes x = some i)
    (hy : indexIn nodes y = some j) : i ≠ j := by
  intro hij
  apply hxy
  have h1 := indexIn_get hx
  have h2 := indexIn_get hy
  rw [hij, h2] at h1
  exact Option.some_inj.1 h1.symm

theorem indexIn_eq_none {nodes : List String} {x : String} :
    indexIn nodes x = none ↔ nodes.contains x = false := by
  induction nodes with
  | nil => simp [indexIn]
  | cons n rest ih =>
    simp only [indexIn, List.contains_cons]
    by_cases hn : n = x
    · simp [hn]
    · simp only [if_neg hn, Option.map_eq_none']
      rw [ih]
      have : (x == n) = false := by
        simp only [beq_eq_false_iff_ne, ne_eq]
        exact fun hc => hn hc.symm
      simp [this]

theorem seedFoldl_length (nodes : List String) :
    ∀ (seeds : List (String × ℚ)) (vec : List ℚ),
      (seeds.foldl (fun vec kw =>
        match indexIn nodes kw.1 with
        | some i => vec.set i kw.2
        | none => vec) vec).length = vec.length := by
  intro seeds
  induction seeds with
  | nil => intro vec; rfl
  | cons kw rest ih =>
    intro vec
    simp only [List.foldl_cons]
    cases h : indexIn nodes kw.1 with
    | none => exact ih vec
    | some i => exact (ih (vec.set i kw.2)).trans (by simp)

theorem buildSeedVec_length (nodes : List String)
    (seeds : List (String × ℚ)) :
    (buildSeedVec nodes seeds).length = nodes.length := by
  unfold buildSeedVec
  rw [seedFoldl_length]
  exact List.length_replicate ..

theorem buildSeedVec_filter (nodes : List String) :
    ∀ (seeds : List (String × ℚ)) (vec : List ℚ),
      seeds.foldl (fun vec kw =>
          match indexIn nodes kw.1 with
          | some i => vec.set i kw.2
          | none => vec) vec =
        (seeds.filter (fun p => nodes.contains p.1)).foldl
          (fun vec kw =>
            match indexIn nodes kw.1 with
            | some i => vec.set i kw.2
            | none => vec) vec := by
  intro seeds
  induction seeds with
  | nil => intro vec; rfl
  | cons kw rest ih =>
    intro vec
    by_cases hc : nodes.contains kw.1
    · rw [List.filter_cons_of_pos (by simpa using hc)]
      simp only [List.foldl_cons]
      exact ih _
    · rw [List.filter_cons_of_neg (by simpa using hc)]
      simp only [List.foldl_cons]
      have hnone : indexIn nodes kw.1 = none :=
        indexIn_eq_none.2 (by simpa using hc)
      rw [hnone]
      exact ih vec

/-- Both propagation functions build their seed vector only from the
seed entries whose key is a node of the graph. -/
theorem buildSeedVec_eq_filter (nodes : List String)
    (seeds : List (String × ℚ)) :
    buildSeedVec nodes seeds =
      buildSeedVec nodes (seeds.filter (fun p => nodes.contains p.1)) := by
  unfold buildSeedVec
  exact buildSeedVec_filter nodes seeds _

theorem get?_replicate_zero {n i : Nat} (h : i < n) :
    (List.replicate n (0:ℚ)).get? i = some 0 := by
  induction n generalizing i with
  | zero => omega
  | succ n ih =>
    cases i with
    | zero => rfl
    | succ i => simpa [List.replicate_succ] using ih (by omega)

theorem get?_set_ne (vec : List ℚ) :
    ∀ (i j : Nat) (w : ℚ), i ≠ j → (vec.set i w).get? j = vec.get? j := by
  induction vec with
  | nil => intro i j w _; rfl
  | cons a rest ih =>
    intro i j w hij
    cases i with
    | zero =>
      cases j with
      | zero => exact absurd rfl hij
      | succ j => rfl
    | succ i =>
      cases j with
      | zero => rfl
      | succ j => simpa [List.set] using ih i j w (by omega)

theorem sum_set_of_get?_zero (vec : List ℚ) :
    ∀ (i : Nat) (w : ℚ), vec.get? i = some 0 →
      (vec.set i w).sum = vec.sum + w := by
  induction vec with
  | nil => intro i w h; simp at h
  | cons a rest ih =>
    intro i w h
    cases i with
    | zero =>
      simp only [List.get?] at h
      cases h
      simp [List.set]
      ring
    | succ i =>
      simp only [List.get?] at h
      simp only [List.set, List.sum_cons, ih i w h]
      ring

theorem seedFoldl_sum (nodes : List String) :
    ∀ (seeds : List (String × ℚ)) (vec : List ℚ),
      (seeds.map Prod.fst).Nodup →
      (∀ p ∈ seeds, ∀ i, indexIn nodes p.1 = some i →
        vec.get? i = some 0) →
      (seeds.foldl (fun vec kw =>
          match indexIn nodes kw.1 with
          | some i => vec.set i kw.2
          | none => vec) vec).sum =
        vec.sum + ((seeds.filter (fun p => nodes.contains p.1)).map
          (fun p => p.2)).sum := by
  intro seeds
  induction seeds with
  | nil => intro vec _ _; simp
  | cons kw rest ih =>
    intro vec hnodup hzero
    have hnodup' : (rest.map Prod.fst).Nodup :=
      (List.nodup_cons.1 (by simpa using hnodup)).2
    have hkw : kw.1 ∉ rest.map Prod.fst :=
      (List.nodup_cons.1 (by simpa using hnodup)).1
    simp only [List.foldl_cons]
    by_cases hc : nodes.contains kw.1
    · have hsome : (indexIn nodes kw.1).isSome = true := by
        cases h : indexIn nodes kw.1 with
        | none =>
          rw [indexIn_eq_none.1 h] at hc
          simp at hc
        | some i => rfl
      rcases Option.isSome_iff_exists.1 hsome with ⟨i, hi⟩
      rw [hi]
      have hvi : vec.get? i = some 0 :=
        hzero kw (List.mem_cons_self kw rest) i hi
      have hzero' : ∀ p ∈ rest, ∀ j, indexIn nodes p.1 = some j →
          (vec.set i kw.2).get? j = some 0 := by
        intro p hp j hj
        have hne : kw.1 ≠ p.1 := by
          intro he
          exact hkw (he ▸ List.mem_map_of_mem Prod.fst hp)
        have hij : i ≠ j := indexIn_ne hne hi hj
        rw [get?_set_ne vec i j kw.2 hij]
        exact hzero p (List.mem_cons_of_mem kw hp) j hj
      rw [ih (vec.set i kw.2) hnodup' hzero',
        sum_set_of_get?_zero vec i kw.2 hvi,
        List.filter_cons_of_pos (by simpa using hc)]
      simp only [List.map_cons, List.sum_cons]
      ring
    · have hnone : indexIn nodes kw.1 = none :=
        indexIn_eq_none.2 (by simpa using hc)
      rw [hnone, List.filter_cons_of_neg (by simpa using hc)]
      exact ih vec hnodup' (fun p hp j hj =>
        hzero p (List.mem_cons_of_mem kw hp) j hj)

/-- With distinct seed keys, the seed vector's total mass is the sum of
the weights of the in-graph seed entries. -/
theorem buildSeedVec_sum (nodes : List String) (seeds : List (String × ℚ))
    (hkeys : (seeds.map Prod.fst).Nodup) :
    (buildSeedVec nodes seeds).sum =
      ((seeds.filter (fun p => nodes.contains p.1)).map
        (fun p => p.2)).sum := by
  unfold buildSeedVec
  have hzero : ∀ p ∈ seeds, ∀ i, indexIn nodes p.1 = some i →
      (List.replicate nodes.length (0:ℚ)).get? i = some 0 := by
    intro p _ i hi
    have := indexIn_get hi
    have hlt : i < nodes.length := by
      by_contra hge
      rw [List.get?_eq_none.2 (by omega)] at this
      exact Option.noConfusion this
    exact get?_replicate_zero hlt
  rw [seedFoldl_sum nodes seeds _ hkeys hzero]
  simp

theorem matTvec_length {n : Nat} :
    ∀ (m : List (List ℚ)) (v : List ℚ),
      (∀ row ∈ m, row.length = n) → (matTvec m v n).length = n := by
  have aux : ∀ (l : List (List ℚ × ℚ)) (acc : List ℚ),
      (∀ rs ∈ l, rs.1.length = n) → acc.length = n →
      (l.foldl (fun acc rs => vecAdd acc (scaleVec rs.2 rs.1)) acc).length
        = n := by
    intro l
    induction l with
    | nil => intro acc _ hacc; exact hacc
    | cons rs rest ih =>
      intro acc hl hacc
      simp only [List.foldl_cons]
      refine ih _ (fun x hx => hl x (List.mem_cons_of_mem rs hx)) ?_
      have h1 : rs.1.length = n := hl rs (List.mem_cons_self rs rest)
      simp [vecAdd, scaleVec, hacc, h1]
  intro m v hm
  refine aux (List.zip m v) (List.replicate n 0) ?_ (by simp)
  intro rs hrs
  exact hm rs.1 (List.of_mem_zip (by simpa using hrs)).1

theorem transitionMatrix_row_length {adj : List (List ℚ)} {n : Nat}
    (h : ∀ row ∈ adj, row.length = n) :
    ∀ row ∈ transitionMatrix adj, row.length = n := by
  intro row hrow
  rw [transitionMatrix_eq_spec] at hrow
  rcases List.mem_map.1 hrow with ⟨r0, hr0, rfl⟩
  simpa using h r0 hr0

theorem heatStep_length {alpha : ℚ} {sv : List ℚ} {P : List (List ℚ)}
    {n : Nat} (hsv : sv.length = n) (hP : ∀ row ∈ P, row.length = n)
    (s : List ℚ) : (heatStep alpha sv P n s).length = n := by
  simp [heatStep, vecAdd, scaleVec, hsv, matTvec_length P s hP]

theorem rwrStep_length {restart : ℚ} {sv : List ℚ} {P : List (List ℚ)}
    {n : Nat} (hsv : sv.length = n) (hP : ∀ row ∈ P, row.length = n)
    (s : List ℚ) : (rwrStep restart sv P n s).length = n := by
  simp [rwrStep, vecAdd, scaleVec, hsv, matTvec_length P s hP]

theorem iterF_length {F : List ℚ → List ℚ} {n : Nat}
    (hF : ∀ s, (F s).length = n) :
    ∀ (k : Nat) (s : List ℚ), s.length = n → (iterF F k s).length = n := by
  intro k
  induction k with
  | zero => intro s hs; exact hs
  | succ k ih =>
    intro s hs
    simp only [iterF]
    exact hF _

theorem countP_zip_zero {x : String} :
    ∀ (nodes : List String) (scores : List ℚ), x ∉ nodes →
      (nodes.zip scores).countP (fun p => p.1 == x) = 0 := by
  intro nodes
  induction nodes with
  | nil => intro scores _; rfl
  | cons n rest ih =>
    intro scores hx
    cases scores with
    | nil => rfl
    | cons sc srest =>
      simp only [List.zip_cons_cons, List.countP_cons]
      have h1 : (n == x) = false := by
        simp only [beq_eq_false_iff_ne, ne_eq]
        intro he
        exact hx (he ▸ List.mem_cons_self n rest)
      rw [ih srest (fun hc => hx (List.mem_cons_of_mem n hc))]
      simp [h1]

theorem countP_zip_nodup {nodes : List String} (hnodup : nodes.Nodup) :
    ∀ {scores : List ℚ}, scores.length = nodes.length →
      ∀ {x : String}, x ∈ nodes →
        (nodes.zip scores).countP (fun p => p.1 == x) = 1 := by
  induction nodes with
  | nil => intro scores _ x hx; simp at hx
  | cons n rest ih =>
    intro scores hlen x hx
    cases scores with
    | nil => simp at hlen
    | cons sc srest =>
      simp only [List.zip_cons_cons, List.countP_cons]
      rcases List.mem_cons.1 hx with rfl | hx'
      · rw [countP_zip_zero rest srest (List.nodup_cons.1 hnodup).1]
        simp
      · have hne : (n == x) = false := by
          simp only [beq_eq_false_iff_ne, ne_eq]
          intro he
          exact (List.nodup_cons.1 hnodup).1 (he ▸ hx')
        rw [ih (List.nodup_cons.1 hnodup).2 (by simpa using hlen) hx']
        simp [hne]

theorem insertDesc_perm (x : String × ℚ) :
    ∀ (l : List (String × ℚ)), (insertDesc x l).Perm (x :: l) := by
  intro l
  induction l with
  | nil => exact List.Perm.refl _
  | cons y ys ih =>
    simp only [insertDesc]
    by_cases h : y.2 < x.2
    · rw [if_pos h]
    · rw [if_neg h]
      exact (List.Perm.cons y ih).trans (List.Perm.swap x y ys)

theorem sortByScoreDesc_perm :
    ∀ (l : List (String × ℚ)), (sortByScoreDesc l).Perm l := by
  intro l
  induction l with
  | nil => exact List.Perm.refl _
  | cons a rest ih =>
    simp only [sortByScoreDesc, List.foldr_cons]
    exact (insertDesc_perm a _).trans (List.Perm.cons a ih)

theorem set_replicate_zero : ∀ (n i : Nat),
    (List.replicate n (0:ℚ)).set i 0 = List.replicate n 0 := by
  intro n
  induction n with
  | zero => intro i; rfl
  | succ n ih =>
    intro i
    cases i with
    | zero => simp [List.replicate_succ, List.set]
    | succ i => simp [List.replicate_succ, List.set, ih]

theorem buildSeedVec_all_zero (nodes : List String) :
    ∀ (seeds : List (String × ℚ)), (∀ p ∈ seeds, p.2 = 0) →
      buildSeedVec nodes seeds = List.replicate nodes.length 0 := by
  have aux : ∀ (seeds : List (String × ℚ)) (vec : List ℚ),
      vec = List.replicate nodes.length 0 → (∀ p ∈ seeds, p.2 = 0) →
      seeds.foldl (fun vec kw =>
          match indexIn nodes kw.1 with
          | some i => vec.set i kw.2
          | none => vec) vec = List.replicate nodes.length 0 := by
    intro seeds
    induction seeds with
    | nil => intro vec hv _; exact hv
    | cons kw rest ih =>
      intro vec hv hall
      simp only [List.foldl_cons]
      cases h : indexIn nodes kw.1 with
      | none =>
        exact ih vec hv (fun p hp => hall p (List.mem_cons_of_mem kw hp))
      | some i =>
        refine ih _ ?_ (fun p hp => hall p (List.mem_cons_of_mem kw hp))
        rw [hall kw (List.mem_cons_self kw rest), hv]
        exact set_replicate_zero nodes.length i
  intro seeds hall
  exact aux seeds _ rfl hall

/-- C6: on a non-empty graph, a seed mapping whose weights sum to zero
does not raise: the normalizer falls back to `1`, the returned score
table still has exactly one row for every node of the graph, and when
every seed weight is zero the propagation runs on the all-zero seed
vector. -/
theorem rwr_zero_total_seed (g : PropGraph) (seeds : List (String × ℚ))
    (hwf : g.wf) (hnodup : g.nodes.Nodup) (hne : g.nodes ≠ [])
    (hzero : (seeds.map (fun p => p.2)).sum = 0)
    (restart tol : ℚ) (maxIter : Nat) :
    rwrNorm seeds = 1 ∧
    (random_walk_with_restart g seeds restart tol maxIter).rows.length =
      g.nodes.length ∧
    (∀ node ∈ g.nodes,
      (random_walk_with_restart g seeds restart tol maxIter).rows.countP
        (fun p => p.1 == node) = 1) ∧
    ((∀ p ∈ seeds, p.2 = 0) →
      buildSeedVec g.nodes
        (seeds.map (fun p => (p.1, p.2 / rwrNorm seeds))) =
        List.replicate g.nodes.length 0) := by
  have hnorm : rwrNorm seeds = 1 := by simp [rwrNorm, hzero]
  have hn0 : ¬ (g.nodes.length = 0) := fun h => hne (List.length_eq_zero.1 h)
  have hrows : (random_walk_with_restart g seeds restart tol maxIter).rows =
      sortByScoreDesc (g.nodes.zip (propLoop
        (rwrStep restart
          (buildSeedVec g.nodes
            (seeds.map (fun p => (p.1, p.2 / rwrNorm seeds))))
          (transitionMatrix g.adj) g.nodes.length)
        tol maxIter
        (buildSeedVec g.nodes
          (seeds.map (fun p => (p.1, p.2 / rwrNorm seeds)))))) := by
    simp only [random_walk_with_restart]
    rw [if_neg hn0]
  have hsvlen : (buildSeedVec g.nodes
      (seeds.map (fun p => (p.1, p.2 / rwrNorm seeds)))).length =
      g.nodes.length := buildSeedVec_length _ _
  have hProws : ∀ row ∈ transitionMatrix g.adj,
      row.length = g.nodes.length := transitionMatrix_row_length hwf.2
  have hscores : (propLoop
      (rwrStep restart
        (buildSeedVec g.nodes
          (seeds.map (fun p => (p.1, p.2 / rwrNorm seeds))))
        (transitionMatrix g.adj) g.nodes.length)
      tol maxIter
      (buildSeedVec g.nodes
        (seeds.map (fun p => (p.1, p.2 / rwrNorm seeds))))).length =
      g.nodes.length := by
    rcases propLoop_characterization
      (rwrStep restart
        (buildSeedVec g.nodes
          (seeds.map (fun p => (p.1, p.2 / rwrNorm seeds))))
        (transitionMatrix g.adj) g.nodes.length)
      tol maxIter
      (buildSeedVec g.nodes
        (seeds.map (fun p => (p.1, p.2 / rwrNorm seeds))))
      with ⟨K, -, hres, -, -, -⟩
    rw [hres]
    exact iterF_length (rwrStep_length hsvlen hProws) K _ hsvlen
  refine ⟨hnorm, ?_, ?_, ?_⟩
  · rw [hrows, (sortByScoreDesc_perm _).length_eq, List.length_zip,
      hscores]
    simp
  · intro node hnode
    rw [hrows, List.Perm.countP_eq _ (sortByScoreDesc_perm _)]
    exact countP_zip_nodup hnodup hscores hnode
  · intro hall
    refine buildSeedVec_all_zero g.nodes _ ?_
    intro p hp
    rcases List.mem_map.1 hp with ⟨q, hq, rfl⟩
    show q.2 / rwrNorm seeds = 0
    rw [hall q hq]
    exact zero_div _

/-- Witness for C6: a two-node graph with cancelling seed weights. -/
theorem rwr_zero_total_seed_witness :
    rwrNorm [("A", (1:ℚ)), ("B", -1)] = 1 :=
  (rwr_zero_total_seed ⟨["A", "B"], [[0, 1], [1, 0]]⟩ [("A", 1), ("B", -1)]
    ⟨rfl, by decide⟩ (by decide) (by decide)
    (by norm_num [List.sum_cons, List.sum_nil])
    (3/10) (1/1000000) 200).1

theorem sum_map_div (l : List (String × ℚ)) (t : ℚ) :
    (l.map (fun p => p.2 / t)).sum = (l.map (fun p => p.2)).sum / t := by
  induction l with
  | nil => simp
  | cons p rest ih => simp [ih, add_div]

theorem sum_filter_split (c : String × ℚ → Bool) (l : List (String × ℚ)) :
    ((l.filter c).map (fun p => p.2)).sum +
      ((l.filter (fun p => !c p)).map (fun p => p.2)).sum =
      (l.map (fun p => p.2)).sum := by
  induction l with
  | nil => simp
  | cons p rest ih =>
    by_cases h : c p
    · rw [List.filter_cons_of_pos h, List.filter_cons_of_neg (by simp [h])]
      simp only [List.map_cons, List.sum_cons]
      linarith
    · rw [List.filter_cons_of_neg h,
        List.filter_cons_of_pos (by simp_all)]
      simp only [List.map_cons, List.sum_cons]
      linarith

/-- C10 (amended): seed keys absent from the graph place no mass in the
seed vector of either propagation routine (heat diffusion's result is
unchanged by dropping them, and RWR's seed vector is built from the
in-graph entries only), while the RWR divisor sums over ALL seed
entries; consequently, when the out-of-graph entries carry positive
total weight and the overall total is positive, the in-graph seed vector
sums to strictly less than `1`. -/
theorem seeds_outside_graph (g : PropGraph) (seeds : List (String × ℚ))
    (alpha tol restart tol2 : ℚ) (m1 m2 : Nat) :
    heat_diffusion g seeds alpha tol m1 =
      heat_diffusion g (seeds.filter (fun p => g.nodes.contains p.1))
        alpha tol m1 ∧
    buildSeedVec g.nodes (seeds.map (fun p => (p.1, p.2 / rwrNorm seeds))) =
      buildSeedVec g.nodes
        ((seeds.filter (fun p => g.nodes.contains p.1)).map
          (fun p => (p.1, p.2 / rwrNorm seeds))) ∧
    ((seeds.map (fun p => p.2)).sum ≠ 0 →
      rwrNorm seeds = (seeds.map (fun p => p.2)).sum) ∧
    ((seeds.map Prod.fst).Nodup →
      0 < (seeds.map (fun p => p.2)).sum →
      0 < ((seeds.filter (fun p => !g.nodes.contains p.1)).map
        (fun p => p.2)).sum →
      (buildSeedVec g.nodes
        (seeds.map (fun p => (p.1, p.2 / rwrNorm seeds)))).sum < 1) := by
  refine ⟨?_, ?_, ?_, ?_⟩
  · by_cases hn : g.nodes.length = 0
    · simp [heat_diffusion, hn]
    · simp only [heat_diffusion, if_neg hn]
      rw [buildSeedVec_eq_filter g.nodes seeds]
  · rw [buildSeedVec_eq_filter g.nodes
      (seeds.map (fun p => (p.1, p.2 / rwrNorm seeds)))]
    rw [List.filter_map]
    rfl
  · intro h
    simp [rwrNorm, h]
  · intro hkeys htpos hopos
    have hnorm : rwrNorm seeds = (seeds.map (fun p => p.2)).sum := by
      simp [rwrNorm, ne_of_gt htpos]
    have hkeys' : ((seeds.map
        (fun p => (p.1, p.2 / rwrNorm seeds))).map Prod.fst).Nodup := by
      rw [List.map_map]
      exact hkeys
    rw [buildSeedVec_sum g.nodes _ hkeys', List.filter_map]
    have hmm : ((seeds.filter
          ((fun p => g.nodes.contains p.1) ∘
            (fun p => (p.1, p.2 / rwrNorm seeds)))).map
        (fun p => (p.1, p.2 / rwrNorm seeds))).map (fun p => p.2) =
        (seeds.filter (fun p => g.nodes.contains p.1)).map
          (fun p => p.2 / rwrNorm seeds) := by
      rw [List.map_map]
      rfl
    rw [hmm, sum_map_div, hnorm]
    rw [div_lt_one htpos]
    have hsplit := sum_filter_split (fun p => g.nodes.contains p.1) seeds
    linarith

/-- C10 counterexample: the seed map `{A: 1, X: 0}` on the one-node
graph `A` has the out-of-graph key `X`, yet the in-graph seed vector
sums to exactly `1`, not strictly less. -/
theorem out_of_graph_zero_weight_seed_sums_to_one :
    ("X" ∈ [("A", (1:ℚ)), ("X", 0)].map Prod.fst) ∧
    ((["A"] : List String).contains "X" = false) ∧
    (buildSeedVec ["A"] ([("A", (1:ℚ)), ("X", 0)].map
      (fun p => (p.1, p.2 / rwrNorm [("A", (1:ℚ)), ("X", 0)])))).sum = 1 := by
  refine ⟨by decide, by decide, ?_⟩
  have h1 : rwrNorm [("A", (1:ℚ)), ("X", 0)] = 1 := by
    norm_num [rwrNorm, List.sum_cons, List.sum_nil]
  have h2 : buildSeedVec ["A"] ([("A", (1:ℚ)), ("X", 0)].map
      (fun p => (p.1, p.2 / rwrNorm [("A", (1:ℚ)), ("X", 0)]))) =
      [1 / rwrNorm [("A", (1:ℚ)), ("X", 0)]] := rfl
  rw [h2, h1]
  norm_num [List.sum_cons, List.sum_nil]

/-- Witness for C10 on the one-node graph with an out-of-graph seed key
carrying positive weight. -/
theorem seeds_outside_graph_witness :
    (buildSeedVec ["A"] ([("A", (1:ℚ)), ("X", 1)].map
      (fun p => (p.1, p.2 / rwrNorm [("A", (1:ℚ)), ("X", 1)])))).sum < 1 :=
  (seeds_outside_graph ⟨["A"], [[0]]⟩ [("A", 1), ("X", 1)]
    (7/10) (1/1000000) (3/10) (1/1000000) 100 200).2.2.2
    (by decide)
    (by rw [show [("A", (1:ℚ)), ("X", 1)].map (fun p => p.2) = [1, 1]
        from rfl]
        norm_num [List.sum_cons, List.sum_nil])
    (by rw [show [("A", (1:ℚ)), ("X", 1)].filter
          (fun p => !((⟨["A"], [[0]]⟩ : PropGraph).nodes.contains p.1)) =
          [("X", (1:ℚ))] from by decide]
        norm_num [List.sum_cons, List.sum_nil])

theorem filter_idem {α : Type} (p : α → Bool) (l : List α) :
    (l.filter p).filter p = l.filter p := by
  induction l with
  | nil => rfl
  | cons a rest ih =>
    by_cases h : p a
    · rw [List.filter_cons_of_pos h, List.filter_cons_of_pos h, ih]
    · rw [List.filter_cons_of_neg h, ih]

/-- C8: `average_shortest_path` silently excludes absent identifiers,
returns `NaN` below two present nodes, `inf` when every pair is
unreachable, and otherwise the mean over exactly the reachable pairs;
`connectivity_zscore` returns `NaN` — never an exception — when the
observed statistic is `NaN` or infinite, when fewer than two queried
nodes are in the graph, or when the random sample distribution has zero
or `NaN` standard deviation. -/
theorem path_metrics_degenerate_cases (g : NXGraph) (nodes : List String)
    (iterations : Nat) :
    average_shortest_path g nodes =
      average_shortest_path g
        (nodes.filter (fun n => g.nodes.contains n)) ∧
    ((nodes.filter (fun n => g.nodes.contains n)).length < 2 →
      average_shortest_path g nodes = .nan) ∧
    (2 ≤ (nodes.filter (fun n => g.nodes.contains n)).length →
      (∀ p ∈ pairsOf (nodes.filter (fun n => g.nodes.contains n)),
        g.spl p.1 p.2 = none) →
      average_shortest_path g nodes = .inf) ∧
    (∀ q, average_shortest_path g nodes = .fin q →
      q = ((pairsOf (nodes.filter (fun n => g.nodes.contains n))).filterMap
            (fun p => g.spl p.1 p.2)).sum /
          ((pairsOf (nodes.filter (fun n => g.nodes.contains n))).filterMap
            (fun p => g.spl p.1 p.2)).length) ∧
    (average_shortest_path g nodes = .nan ∨
        average_shortest_path g nodes = .inf →
      connectivity_zscore g nodes iterations = .nan) ∧
    ((nodes.filter (fun n => g.nodes.contains n)).length < 2 →
      connectivity_zscore g nodes iterations = .nan) ∧
    (nanvarP (randomLengths g
        (nodes.filter (fun n => g.nodes.contains n)).length iterations) =
        some 0 →
      connectivity_zscore g nodes iterations = .nan) ∧
    (nanvarP (randomLengths g
        (nodes.filter (fun n => g.nodes.contains n)).length iterations) =
        none →
      connectivity_zscore g nodes iterations = .nan) := by
  refine ⟨?_, ?_, ?_, ?_, ?_, ?_, ?_, ?_⟩
  · simp only [average_shortest_path, filter_idem]
  · intro h
    simp only [average_shortest_path, if_pos h]
  · intro h2 hall
    have hne : ¬ ((nodes.filter (fun n => g.nodes.contains n)).length < 2) :=
      by omega
    have hempty : ((pairsOf (nodes.filter (fun n => g.nodes.contains n))).filterMap
        (fun p => g.spl p.1 p.2)) = [] :=
      List.filterMap_eq_nil.2 hall
    simp only [average_shortest_path, if_neg hne, hempty]
    rfl
  · intro q hq
    simp only [average_shortest_path] at hq
    split at hq
    · exact absurd hq (by simp)
    · split at hq
      · exact absurd hq (by simp)
      · exact (PFloat.fin.injEq .. ▸ hq).symm
  · intro h
    rcases h with h | h <;> simp [connectivity_zscore, h]
  · intro h
    unfold connectivity_zscore
    cases hasp : average_shortest_path g nodes with
    | nan => rfl
    | inf => rfl
    | fin q =>
      dsimp only
      rw [if_pos h]
  · intro hvar
    unfold connectivity_zscore
    cases hasp : average_shortest_path g nodes with
    | nan => rfl
    | inf => rfl
    | fin q =>
      dsimp only
      by_cases hlt : (nodes.filter (fun n => g.nodes.contains n)).length < 2
      · rw [if_pos hlt]
      · rw [if_neg hlt, hvar]
        dsimp only
        rw [if_pos rfl]
  · intro hvar
    unfold connectivity_zscore
    cases hasp : average_shortest_path g nodes with
    | nan => rfl
    | inf => rfl
    | fin q =>
      dsimp only
      by_cases hlt : (nodes.filter (fun n => g.nodes.contains n)).length < 2
      · rw [if_pos hlt]
      · rw [if_neg hlt, hvar]

/-- Witness for C8: on a graph where every pair is unreachable the
observed average shortest path is infinite. -/
theorem path_metrics_degenerate_cases_witness :
    average_shortest_path disconnectedPair ["A", "B"] = .inf :=
  (path_metrics_degenerate_cases disconnectedPair ["A", "B"] 3).2.2.1
    (by decide) (fun p _ => rfl)

/-- C9: `connectivity_zscore` is deterministic across invocations — it
ignores the ambient global RNG world because its generator is freshly
seeded with the fixed seed `42` on every call. -/
theorem connectivity_zscore_deterministic (g : NXGraph)
    (nodes : List String) (iterations : Nat) (w1 w2 : Nat) :
    connectivity_zscore_run g nodes iterations w1 =
      connectivity_zscore_run g nodes iterations w2 ∧
    connectivity_zscore_run g nodes iterations w1 =
      connectivity_zscore g nodes iterations :=
  ⟨rfl, rfl⟩
